import Mathlib

/-!
Verification of the translation request pipeline of clanker-translate
(`src/services/OpenRouterService.ts` and `src/utils/writingSystem.ts`).

The TypeScript code is shallowly embedded: JavaScript runtime values that can
flow through the pipeline are modelled by `JsValue`; the host primitives the
code calls (`String.prototype.trim`, the two regex `replace`s, `JSON.parse`,
property access, truthiness) are modelled as executable Lean functions over
`JsValue` / `List Char`; the `fetch` transport is abstracted as a
`FetchOutcome` per attempt, and exceptions are modelled with `Except`.
-/

/-- A JavaScript runtime value, as far as the pipeline can observe it.
`undefined` is included because property lookup on a parsed JSON object
yields `undefined` for an absent key.  A JSON number is kept as the exact
value `mant × 10 ^ exp` read off its token (the pipeline only ever observes
a number's truthiness, i.e. whether it is zero, so neither the float64
rounding of the host nor this representation's non-uniqueness is
observable). -/
inductive JsValue where
  | undefined : JsValue
  | null : JsValue
  | bool : Bool → JsValue
  | num : Int → Int → JsValue
  | str : String → JsValue
  | arr : List JsValue → JsValue
  | obj : List (String × JsValue) → JsValue

/-- The backtick character, U+0060. -/
def backtickChar : Char := Char.ofNat 96

/-- The left curly bracket character, U+007B. -/
def lbraceChar : Char := Char.ofNat 123

/-- The right curly bracket character, U+007D. -/
def rbraceChar : Char := Char.ofNat 125

/-- JavaScript whitespace: the character class matched by `\s` in a JS regex
and trimmed by `String.prototype.trim` (WhiteSpace ∪ LineTerminator). -/
def isJsWs (c : Char) : Bool :=
  c.toNat == 9 || c.toNat == 10 || c.toNat == 11 || c.toNat == 12 || c.toNat == 13 ||
  c.toNat == 32 || c.toNat == 160 || c.toNat == 5760 ||
  (8192 ≤ c.toNat && c.toNat ≤ 8202) ||
  c.toNat == 8232 || c.toNat == 8233 || c.toNat == 8239 || c.toNat == 8287 ||
  c.toNat == 12288 || c.toNat == 65279

/-- JSON whitespace: the only four characters `JSON.parse` skips between
tokens (space, tab, line feed, carriage return). -/
def isJsonWs (c : Char) : Bool :=
  c.toNat == 32 || c.toNat == 9 || c.toNat == 10 || c.toNat == 13

/-- An ASCII decimal digit (the only digits JSON numbers may contain). -/
def isDigitChar (c : Char) : Bool :=
  48 ≤ c.toNat && c.toNat ≤ 57

/-- Remove the longest suffix of characters satisfying `p`. -/
def dropTrailing (p : Char → Bool) (l : List Char) : List Char :=
  (l.reverse.dropWhile p).reverse

/-- `String.prototype.trim` on the character list: remove JS whitespace from
both ends. -/
def jsTrimL (l : List Char) : List Char :=
  dropTrailing isJsWs (l.dropWhile isJsWs)

/-- `content.trim()` as a `String` function. -/
def jsTrim (s : String) : String := ⟨jsTrimL s.data⟩

/-- The leading ws-or-value trim `JSON.parse` performs: remove JSON
whitespace from both ends (the JSON grammar is `ws value ws`). -/
def jsonTrimL (l : List Char) : List Char :=
  dropTrailing isJsonWs (l.dropWhile isJsonWs)

/-- `cleanContent.replace(/^```(?:json)?\s*\n?/, '')` (OpenRouterService.ts
line 293).  The regex anchors at the start; `\s*` is greedy, so together with
the optional `\n` it consumes the maximal run of JS whitespace after the
fence tag. -/
def stripOpenFenceL (l : List Char) : List Char :=
  if l.take 3 = [backtickChar, backtickChar, backtickChar] then
    let l1 := l.drop 3
    let l2 := if l1.take 4 = ['j', 's', 'o', 'n'] then l1.drop 4 else l1
    l2.dropWhile isJsWs
  else l

/-- `cleanContent.replace(/\n?```\s*$/, '')` (OpenRouterService.ts line 295).
Since `$` (without `/m`) only matches at the very end and the `\s*` must
reach it, a match exists exactly when the string, after its maximal trailing
whitespace run, ends in three backticks; the leftmost such match also eats a
single `\n` directly before the backticks when there is one. -/
def stripCloseFenceL (l : List Char) : List Char :=
  let r := l.reverse
  let r1 := r.dropWhile isJsWs
  if r1.take 3 = [backtickChar, backtickChar, backtickChar] then
    let r2 := r1.drop 3
    let r3 := if r2.take 1 = ['\n'] then r2.drop 1 else r2
    r3.reverse
  else l

/-- Lines 290–296 of OpenRouterService.ts: trim the content and, when it
starts with a triple-backtick fence, strip the opening fence (with optional
`json` tag) and the trailing fence. -/
def stripFencesL (l : List Char) : List Char :=
  let c := jsTrimL l
  if c.take 3 = [backtickChar, backtickChar, backtickChar] then
    stripCloseFenceL (stripOpenFenceL c)
  else c

/-- `stripFencesL` as a `String` function. -/
def stripFences (s : String) : String := ⟨stripFencesL s.data⟩

/-- Value of a hexadecimal digit, for `\uXXXX` escapes. -/
def hexVal (c : Char) : Option Nat :=
  if 48 ≤ c.toNat ∧ c.toNat ≤ 57 then some (c.toNat - 48)
  else if 97 ≤ c.toNat ∧ c.toNat ≤ 102 then some (c.toNat - 87)
  else if 65 ≤ c.toNat ∧ c.toNat ≤ 70 then some (c.toNat - 55)
  else none

/-- Body of a JSON string literal, after the opening quote: consume up to and
including the closing quote, processing escapes, rejecting unescaped control
characters.  (Surrogate-pair recombination of `\u` escapes is not modelled;
no claim depends on it.) -/
def parseStringAux : List Char → List Char → Option (String × List Char)
  | _acc, [] => none
  | acc, c :: rest =>
    if c = '"' then some (⟨acc.reverse⟩, rest)
    else if c = '\\' then
      match rest with
      | [] => none
      | e :: rest2 =>
        if e = '"' then parseStringAux ('"' :: acc) rest2
        else if e = '\\' then parseStringAux ('\\' :: acc) rest2
        else if e = '/' then parseStringAux ('/' :: acc) rest2
        else if e = 'b' then parseStringAux (Char.ofNat 8 :: acc) rest2
        else if e = 'f' then parseStringAux (Char.ofNat 12 :: acc) rest2
        else if e = 'n' then parseStringAux ('\n' :: acc) rest2
        else if e = 'r' then parseStringAux ('\r' :: acc) rest2
        else if e = 't' then parseStringAux ('\t' :: acc) rest2
        else if e = 'u' then
          match rest2 with
          | h1 :: h2 :: h3 :: h4 :: rest3 =>
            match hexVal h1, hexVal h2, hexVal h3, hexVal h4 with
            | some a, some b, some c3, some d =>
              parseStringAux (Char.ofNat (4096 * a + 256 * b + 16 * c3 + d) :: acc) rest3
            | _, _, _, _ => none
          | _ => none
        else none
    else if c.toNat < 32 then none
    else parseStringAux (c :: acc) rest

/-- Fold decimal digits into a natural number. -/
def digitsToNat (ds : List Char) : Nat :=
  ds.foldl (fun n c => 10 * n + (c.toNat - 48)) 0

/-- Assemble a JSON number from its parts (sign, integer digits, fraction
digits, exponent) into mantissa and base-ten exponent. -/
def mkJsonNumber (neg : Bool) (intPart : Nat) (fracs : List Char) (exp : Int) : Int × Int :=
  let mant : Nat := intPart * 10 ^ fracs.length + digitsToNat fracs
  ((if neg then -(mant : Int) else (mant : Int)), exp - fracs.length)

/-- Exponent part of a JSON number: `[eE][+-]?digits`.  When the `e` is not
followed by at least one digit it is not consumed at all (the overall parse
then fails on the unconsumed suffix, as `JSON.parse` does). -/
def parseExpPart (cs : List Char) : Int × List Char :=
  match cs with
  | c :: rest =>
    if c = 'e' ∨ c = 'E' then
      let (eNeg, rest1) :=
        match rest with
        | s :: r1 => if s = '+' then (false, r1) else if s = '-' then (true, r1) else (false, rest)
        | [] => (false, rest)
      let ds := rest1.takeWhile isDigitChar
      if ds = [] then (0, cs)
      else ((if eNeg then -(digitsToNat ds : Int) else (digitsToNat ds : Int)), rest1.dropWhile isDigitChar)
    else (0, cs)
  | [] => (0, cs)

/-- Fraction part of a JSON number: `.digits`.  A dot not followed by a digit
is not consumed (the overall parse then fails, as `JSON.parse` does). -/
def parseFracPart (cs : List Char) : List Char × List Char :=
  match cs with
  | c :: rest =>
    if c = '.' ∧ (rest.take 1).all isDigitChar ∧ rest.take 1 ≠ [] then
      (rest.takeWhile isDigitChar, rest.dropWhile isDigitChar)
    else ([], cs)
  | [] => ([], cs)

/-- A JSON number token: `-?(0|[1-9][0-9]*)(\.[0-9]+)?([eE][+-]?[0-9]+)?`. -/
def parseNumber (cs : List Char) : Option ((Int × Int) × List Char) :=
  let (neg, cs1) := if cs.take 1 = ['-'] then (true, cs.drop 1) else (false, cs)
  match cs1 with
  | [] => none
  | c :: rest =>
    if c = '0' then
      let (fracs, cs2) := parseFracPart rest
      let (e, cs3) := parseExpPart cs2
      some (mkJsonNumber neg 0 fracs e, cs3)
    else if isDigitChar c then
      let ds := rest.takeWhile isDigitChar
      let (fracs, cs2) := parseFracPart (rest.dropWhile isDigitChar)
      let (e, cs3) := parseExpPart cs2
      some (mkJsonNumber neg (digitsToNat (c :: ds)) fracs e, cs3)
    else none

mutual

/-- One JSON value, dispatched on its first character.  The caller has
already skipped any leading JSON whitespace. -/
def parseValue : Nat → List Char → Option (JsValue × List Char)
  | 0, _ => none
  | _ + 1, [] => none
  | fuel + 1, c :: cs =>
    if c = 'n' then
      if cs.take 3 = ['u', 'l', 'l'] then some (.null, cs.drop 3) else none
    else if c = 't' then
      if cs.take 3 = ['r', 'u', 'e'] then some (.bool true, cs.drop 3) else none
    else if c = 'f' then
      if cs.take 4 = ['a', 'l', 's', 'e'] then some (.bool false, cs.drop 4) else none
    else if c = '"' then
      match parseStringAux [] cs with
      | some (s, rest) => some (.str s, rest)
      | none => none
    else if c = '[' then
      let cs1 := cs.dropWhile isJsonWs
      if cs1.take 1 = [']'] then some (.arr [], cs1.drop 1)
      else
        match parseElems fuel cs1 with
        | some (vs, rest) => some (.arr vs, rest)
        | none => none
    else if c = lbraceChar then
      let cs1 := cs.dropWhile isJsonWs
      if cs1.take 1 = [rbraceChar] then some (.obj [], cs1.drop 1)
      else
        match parseMembers fuel cs1 with
        | some (ms, rest) => some (.obj ms, rest)
        | none => none
    else if c = '-' ∨ isDigitChar c then
      match parseNumber (c :: cs) with
      | some (q, rest) => some (.num q.1 q.2, rest)
      | none => none
    else none

/-- Comma-separated non-empty element list of a JSON array, up to and
including the closing bracket. -/
def parseElems : Nat → List Char → Option (List JsValue × List Char)
  | 0, _ => none
  | fuel + 1, cs =>
    match parseValue fuel cs with
    | some (v, rest) =>
      let r1 := rest.dropWhile isJsonWs
      if r1.take 1 = [','] then
        match parseElems fuel ((r1.drop 1).dropWhile isJsonWs) with
        | some (vs, rest2) => some (v :: vs, rest2)
        | none => none
      else if r1.take 1 = [']'] then some ([v], r1.drop 1)
      else none
    | none => none

/-- Comma-separated non-empty member list of a JSON object, up to and
including the closing brace. -/
def parseMembers : Nat → List Char → Option (List (String × JsValue) × List Char)
  | 0, _ => none
  | fuel + 1, cs =>
    match cs with
    | c :: cs1 =>
      if c = '"' then
        match parseStringAux [] cs1 with
        | some (k, rest) =>
          let r1 := rest.dropWhile isJsonWs
          if r1.take 1 = [':'] then
            match parseValue fuel ((r1.drop 1).dropWhile isJsonWs) with
            | some (v, rest2) =>
              let r2 := rest2.dropWhile isJsonWs
              if r2.take 1 = [','] then
                match parseMembers fuel ((r2.drop 1).dropWhile isJsonWs) with
                | some (ms, rest3) => some ((k, v) :: ms, rest3)
                | none => none
              else if r2.take 1 = [rbraceChar] then some ([(k, v)], r2.drop 1)
              else none
            | none => none
          else none
        | none => none
      else none
    | [] => none

end

/-- `JSON.parse`, modelled executably.  The grammar is `ws value ws` with
`ws` the four JSON whitespace characters, so the input is trimmed at both
ends and the value parser must consume the remainder exactly.  The fuel
`2 * length + 2` is sufficient for every accepted input: along any chain of
recursive calls the fuel decreases at most twice per input character
consumed.  Returns `none` exactly when `JSON.parse` would throw. -/
def jsonParse (s : String) : Option JsValue :=
  let core := jsonTrimL s.data
  match parseValue (2 * core.length + 2) core with
  | some (v, []) => some v
  | _ => none

/-- JavaScript truthiness of a `JsValue` (`Boolean(v)`). -/
def truthy : JsValue → Bool
  | .undefined => false
  | .null => false
  | .bool b => b
  | .num mant _ => !(mant == 0)
  | .str s => !(s == "")
  | .arr _ => true
  | .obj _ => true

/-- JavaScript property access `v.k` for the receivers that can appear here.
On an object, the last binding wins (as with duplicate keys in
`JSON.parse`); on every other non-nullish receiver the named properties used
by the pipeline (`translation`, `choices`, `message`, `content`, …) do not
exist, so the result is `undefined`.  The pipeline never applies this to
`null`/`undefined` without having established truthiness first (those
accesses throw and are modelled at the call sites). -/
def jsGetField : JsValue → String → JsValue
  | .obj fields, k =>
    match fields.reverse.find? (fun p => p.1 == k) with
    | some p => p.2
    | none => .undefined
  | _, _ => .undefined

/-- JavaScript index access `v[0]` (numeric key coerced to a string key on
plain objects, character access on strings, element access on arrays). -/
def jsIndex : JsValue → Nat → JsValue
  | .arr xs, i => (xs.get? i).getD .undefined
  | .str s, i =>
    match s.data.get? i with
    | some c => .str ⟨[c]⟩
    | none => .undefined
  | .obj fields, i => jsGetField (.obj fields) (toString i)
  | _, _ => .undefined

/-- `a || b` on JavaScript values. -/
def jsOr (a b : JsValue) : JsValue := if truthy a then a else b

/-- Is the value `null`? -/
def isNullV : JsValue → Bool
  | .null => true
  | _ => false

/-- The `TranslationResponse` object built by the pipeline.  Each field holds
the JavaScript value stored under that key; an absent key is `undefined`. -/
structure TranslationResponse where
  translation : JsValue
  explanation : JsValue
  transcription : JsValue
  detectedLanguage : JsValue

/-- `parseTranslationResponse` (OpenRouterService.ts lines 287–323): strip
fences, try `JSON.parse`; on success build the response object from the
parsed value (`parsed.translation || ''` etc.); on a parse failure fall back
to using the entire original content as the translation.  When the parse
succeeds with `null`, the property access `parsed.translation` on line 301
throws a `TypeError`, which the surrounding `try` catches, so the fallback
is taken as well.  The function is total: every throw inside the `try` is
caught (for string inputs the `catch` block itself cannot throw). -/
def parseTranslationResponse (content : String) : TranslationResponse :=
  match jsonParse (stripFences content) with
  | some parsed =>
    if isNullV parsed then
      { translation := .str content, explanation := .undefined,
        transcription := .undefined, detectedLanguage := .undefined }
    else
      { translation := jsOr (jsGetField parsed "translation") (.str "")
        explanation := jsGetField parsed "explanation"
        transcription := jsGetField parsed "transcription"
        detectedLanguage := jsGetField parsed "detectedLanguage" }
  | none =>
    { translation := .str content, explanation := .undefined,
      transcription := .undefined, detectedLanguage := .undefined }

/-- Is the value a string (`typeof v === 'string'`)? -/
def isStringV : JsValue → Bool
  | .str _ => true
  | _ => false

/-- `v !== undefined && typeof v !== 'string'`: the condition under which the
shape validator rejects an optional field. -/
def presentNonString (v : JsValue) : Bool :=
  match v with
  | .undefined => false
  | .str _ => false
  | _ => true

/-- `isValidTranslationResponse` (OpenRouterService.ts lines 217–243).
The first check `!translation || typeof translation !== 'string' ||
translation.trim() === ''` passes exactly when the translation is a string
with non-empty trim (a string with non-empty trim is automatically truthy);
each optional field must be a string when present. -/
def isValidTranslationResponse (r : TranslationResponse) : Bool :=
  match r.translation with
  | .str s =>
    if jsTrim s == "" then false
    else
      !presentNonString r.explanation &&
      !presentNonString r.transcription &&
      !presentNonString r.detectedLanguage
  | _ => false

/-- The `type` tag of an `OpenRouterError` (`src/types`). -/
inductive ErrType where
  | auth : ErrType
  | rate_limit : ErrType
  | network : ErrType
  | invalid_response : ErrType
  | unknown : ErrType
  deriving DecidableEq

/-- An `OpenRouterError` value, as built by `createError` (OpenRouterService.ts
lines 332–338): a plain object with a `type` tag, a message and an optional
HTTP status code.  Such an object has no `name` property. -/
structure OpenRouterError where
  type : ErrType
  message : String
  statusCode : Option Nat
  deriving DecidableEq

/-- A JavaScript value thrown inside the pipeline: either an
`OpenRouterError` (a plain object whose `type` property is set, and whose
`name` property is `undefined`), or an `Error` instance (whose `name` is a
string — `"AbortError"` for the `DOMException` produced by an aborted
`fetch`, `"Error"` for a plain `new Error(...)` — and whose `type` property
is `undefined`). -/
inductive Thrown where
  | classified : OpenRouterError → Thrown
  | jsError : (name : String) → (message : String) → Thrown
  deriving DecidableEq

/-- `createError` (OpenRouterService.ts lines 332–338). -/
def createError (type : ErrType) (message : String) (statusCode : Option Nat) : OpenRouterError :=
  { type := type, message := message, statusCode := statusCode }

/-- What the transport does on one attempt, abstracting the `fetch` call of
`translateAttempt`:
* `success body` — HTTP success and `response.json()` resolves with `body`;
* `httpError s` — `response.ok` is false with status `s`;
* `badJson` — HTTP success but `response.json()` rejects (malformed body);
* `abort` — the supplied cancellation signal aborted the call: `fetch` (or
  the body read) rejects with a `DOMException` whose `name` is
  `"AbortError"` and whose `type` property is `undefined`;
* `netFail name msg` — `fetch` rejects with some other `Error` (DNS failure,
  connection reset, …), carrying no `type` property. -/
inductive FetchOutcome where
  | success : JsValue → FetchOutcome
  | httpError : Nat → FetchOutcome
  | badJson : FetchOutcome
  | abort : FetchOutcome
  | netFail : (name : String) → (message : String) → FetchOutcome

/-- `translateAttempt` (OpenRouterService.ts lines 161–210) as a function of
the transport outcome.  The `try/catch` rethrows any thrown value whose
`type` property is truthy and wraps everything else — including the
`AbortError` of a cancelled call, which has no `type` property — as a
`network` error.  On a successful response the envelope is checked
(`!data.choices || !data.choices[0] || !data.choices[0].message` throws
`invalid_response`), then the message content is handed to
`parseTranslationResponse`; a non-string content makes `content.trim()`
throw inside the parser's `try` and `content.substring(0, 500)` throw in its
`catch`, which the outer catch then wraps as `network`.  A `null` body makes
`data.choices` itself throw, with the same result. -/
def translateAttempt (outcome : FetchOutcome) : Except Thrown TranslationResponse :=
  match outcome with
  | .httpError status =>
    if status = 401 ∨ status = 403 then
      .error (.classified (createError .auth "Invalid API key" (some status)))
    else if status = 429 then
      .error (.classified (createError .rate_limit "Rate limit exceeded. Please try again later." (some status)))
    else
      .error (.classified (createError .unknown
        ("Translation request failed with status " ++ toString status) (some status)))
  | .badJson => .error (.classified (createError .network "Network error occurred during translation" none))
  | .abort => .error (.classified (createError .network "Network error occurred during translation" none))
  | .netFail _ _ => .error (.classified (createError .network "Network error occurred during translation" none))
  | .success body =>
    if isNullV body then
      .error (.classified (createError .network "Network error occurred during translation" none))
    else
      let choices := jsGetField body "choices"
      if !truthy choices then
        .error (.classified (createError .invalid_response "Invalid response format from API" none))
      else
        let c0 := jsIndex choices 0
        if !truthy c0 then
          .error (.classified (createError .invalid_response "Invalid response format from API" none))
        else if !truthy (jsGetField c0 "message") then
          .error (.classified (createError .invalid_response "Invalid response format from API" none))
        else
          match jsGetField (jsGetField c0 "message") "content" with
          | .str content => .ok (parseTranslationResponse content)
          | _ => .error (.classified (createError .network "Network error occurred during translation" none))

/-- `MAX_RETRIES` (OpenRouterService.ts line 5). -/
def MAX_RETRIES : Nat := 3

/-- The non-retry test of the `catch` block (lines 132–134): `error.type ===
'auth' || error.type === 'rate_limit' || error.name === 'AbortError'`.  On a
classified error the `name` property is `undefined`; on an `Error` instance
the `type` property is `undefined`. -/
def noRetry : Thrown → Bool
  | .classified e => e.type == .auth || e.type == .rate_limit
  | .jsError name _ => name == "AbortError"

/-- The observable trace of one `translate` call: its result, the backoff
sleeps performed (in milliseconds, in order) and the number of attempts
(calls to `translateAttempt`) made. -/
structure TranslateTrace where
  result : Except Thrown TranslationResponse
  sleeps : List Nat
  attempts : Nat

/-- The `for` loop of `translate` (OpenRouterService.ts lines 111–148),
unrolled as a recursion: `attempt` is the current 1-based attempt number,
`fuel` the number of loop iterations still allowed
(`fuel = MAX_RETRIES - attempt + 1`), `lastError` the captured pending
failure.  When the loop exits, line 151 throws `lastError` or the synthetic
`unknown` error.  A schema-invalid success stores
`new Error('Invalid response schema')` and falls through to the next
iteration with **no** sleep (the backoff on line 146 only runs in the
`catch` block); a retryable thrown error sleeps `2^(attempt-1)` seconds
before the next iteration, except after the final attempt. -/
def translateAux (out : Nat → FetchOutcome) : Nat → Nat → Option Thrown → TranslateTrace
  | _, 0, lastError =>
    { result := .error (lastError.getD (.classified
        (createError .unknown "Translation failed after multiple attempts" none)))
      sleeps := [], attempts := 0 }
  | attempt, fuel + 1, _lastError =>
    match translateAttempt (out attempt) with
    | .ok r =>
      if isValidTranslationResponse r then
        { result := .ok r, sleeps := [], attempts := 1 }
      else
        let t := translateAux out (attempt + 1) fuel (some (.jsError "Error" "Invalid response schema"))
        { result := t.result, sleeps := t.sleeps, attempts := t.attempts + 1 }
    | .error e =>
      if noRetry e then
        { result := .error e, sleeps := [], attempts := 1 }
      else if fuel = 0 then
        { result := .error e, sleeps := [], attempts := 1 }
      else
        let t := translateAux out (attempt + 1) fuel (some e)
        { result := t.result, sleeps := 2 ^ (attempt - 1) * 1000 :: t.sleeps, attempts := t.attempts + 1 }

/-- `OpenRouterService.translate` (OpenRouterService.ts lines 108–152), with
the transport behaviour of attempt `n` given by `out n`.  (The name is
qualified by the class name as in the source; a bare `translate` collides
with Mathlib.) -/
def OpenRouterService.translate (out : Nat → FetchOutcome) : TranslateTrace :=
  translateAux out 1 MAX_RETRIES none

/-- `getWritingSystem` (writingSystem.ts lines 10–26). -/
def getWritingSystem (languageCode : String) : String :=
  let writingSystems : List (String × String) :=
    [("en", "latin"), ("es", "latin"), ("fr", "latin"), ("de", "latin"), ("pt", "latin"),
     ("ja", "japanese"), ("zh", "chinese"), ("ko", "korean"), ("ar", "arabic"),
     ("ru", "cyrillic"), ("auto", "unknown")]
  match writingSystems.find? (fun p => p.1 == languageCode) with
  | some p => p.2
  | none => "unknown"

/-- `needsTranscription` (writingSystem.ts lines 34–49). -/
def needsTranscription (fromLanguage toLanguage : String) : Bool :=
  if fromLanguage == "auto" then false
  else
    let fromSystem := getWritingSystem fromLanguage
    let toSystem := getWritingSystem toLanguage
    if fromSystem == "unknown" || toSystem == "unknown" then false
    else !(fromSystem == toSystem)

/-- A `TranslationRequest` (`src/types`); `context` is an optional field. -/
structure TranslationRequest where
  apiKey : String
  model : String
  sourceText : String
  fromLanguage : String
  toLanguage : String
  context : Option String

/-- The first two statements of `buildUserPrompt` (lines 251–255): the
translate instruction plus the optional `Context:` line (`if
(request.context)` is JS truthiness: absent or empty string adds nothing). -/
def promptBase (request : TranslationRequest) : String :=
  let prompt := "Translate the following text from " ++ request.fromLanguage ++ " to " ++
    request.toLanguage ++ ":\n\n" ++ request.sourceText
  if !(request.context.getD "" == "") then
    prompt ++ "\n\nContext: " ++ request.context.getD ""
  else prompt

/-- The transcription clause appended by lines 259–274 when
`needsTranscription` holds, with the per-source-language romanization
example. -/
def transcriptionClause (request : TranslationRequest) : String :=
  let clause := "\n\nPlease include a ROMANIZATION of the TRANSLATED text (the translated " ++
    request.toLanguage ++ " text)"
  let clause :=
    if request.fromLanguage == "ja" then
      clause ++ " using romaji (e.g., \"konnichiwa\" not \"kõ̞nːit͡ɕiɰᵝa̠\")"
    else if request.fromLanguage == "zh" || request.fromLanguage == "zh-CN" ||
        request.fromLanguage == "zh-TW" then
      clause ++ " using pinyin with tone marks (e.g., \"nǐ hǎo\")"
    else if request.fromLanguage == "ko" then
      clause ++ " using revised romanization (e.g., \"annyeonghaseyo\")"
    else if request.fromLanguage == "ar" then
      clause ++ " using simple Latin letters (e.g., \"marhaban\")"
    else if request.fromLanguage == "ru" then
      clause ++ " using simple Latin letters (e.g., \"privet\")"
    else clause
  clause ++ ". Use ONLY Latin letters (a-z), NO IPA symbols."

/-- `buildUserPrompt` (OpenRouterService.ts lines 250–280). -/
def buildUserPrompt (request : TranslationRequest) : String :=
  let prompt := promptBase request
  let prompt :=
    if needsTranscription request.fromLanguage request.toLanguage then
      prompt ++ transcriptionClause request
    else prompt
  prompt ++ "\n\nRemember: Write the explanation in English."

/-- Is a thrown value a classified `OpenRouterError` (does it carry a `type`
tag)? -/
def thrownIsClassified : Thrown → Bool
  | .classified _ => true
  | .jsError _ _ => false

/-- Does an attempt result respect the classification discipline (an `ok`
always does; an `error` must carry a classified value)? -/
def attemptErrClassified (r : Except Thrown TranslationResponse) : Bool :=
  match r with
  | .error e => thrownIsClassified e
  | .ok _ => true

/-- The characters a JSON value may start with (after leading whitespace):
the first character of `null`/`true`/`false`, a quote, an opening bracket or
brace, a minus sign or a digit.  `parseValue` fails on anything else. -/
def goodHead (c : Char) : Bool :=
  c == 'n' || c == 't' || c == 'f' || c == '"' || c == '[' ||
  c == lbraceChar || c == '-' || isDigitChar c

/-! ## Helper lemmas -/

theorem translateAttempt_classified_aux (o : FetchOutcome) :
    attemptErrClassified (translateAttempt o) = true := by
  cases o <;> simp only [translateAttempt] <;> (repeat' split) <;> rfl

theorem translateAttempt_error_classified (o : FetchOutcome) (e : Thrown)
    (h : translateAttempt o = .error e) : thrownIsClassified e = true := by
  have H := translateAttempt_classified_aux o
  rw [h] at H
  exact H

theorem translateAux_ok_valid (out : Nat → FetchOutcome) :
    ∀ fuel attempt le r, (translateAux out attempt fuel le).result = Except.ok r →
      isValidTranslationResponse r = true := by
  intro fuel
  induction fuel with
  | zero => intro attempt le r h; simp [translateAux] at h
  | succ n ih =>
    intro attempt le r h
    simp only [translateAux] at h
    cases hA : translateAttempt (out attempt) with
    | ok r' =>
      rw [hA] at h
      by_cases hv : isValidTranslationResponse r'
      · simp only [hv, if_true] at h
        cases h
        exact hv
      · simp only [hv, if_false, Bool.false_eq_true] at h
        exact ih _ _ _ h
    | error e =>
      rw [hA] at h
      by_cases hn : noRetry e
      · simp [hn] at h
      · by_cases hf : n = 0
        · simp [hn, hf] at h
        · simp only [hn, hf, if_false, Bool.false_eq_true, if_neg] at h
          exact ih _ _ _ h

theorem translateAux_error_allowed (out : Nat → FetchOutcome) :
    ∀ fuel attempt le e,
      (le = none ∨ ∃ e₀, le = some e₀ ∧
        (thrownIsClassified e₀ = true ∨ e₀ = .jsError "Error" "Invalid response schema")) →
      (translateAux out attempt fuel le).result = Except.error e →
      thrownIsClassified e = true ∨ e = .jsError "Error" "Invalid response schema" := by
  intro fuel
  induction fuel with
  | zero =>
    intro attempt le e hle h
    simp only [translateAux] at h
    rcases hle with rfl | ⟨e₀, rfl, he₀⟩
    · simp only [Option.getD_none] at h
      cases h
      left; rfl
    · simp only [Option.getD_some] at h
      cases h
      exact he₀
  | succ n ih =>
    intro attempt le e hle h
    simp only [translateAux] at h
    cases hA : translateAttempt (out attempt) with
    | ok r' =>
      rw [hA] at h
      by_cases hv : isValidTranslationResponse r'
      · simp [hv] at h
      · simp only [hv, if_false, Bool.false_eq_true] at h
        exact ih _ _ _ (Or.inr ⟨_, rfl, Or.inr rfl⟩) h
    | error e' =>
      rw [hA] at h
      by_cases hn : noRetry e'
      · simp only [hn, if_true] at h
        cases h
        exact Or.inl (translateAttempt_error_classified _ _ hA)
      · by_cases hf : n = 0
        · simp only [hn, hf, if_false, if_true, Bool.false_eq_true] at h
          cases h
          exact Or.inl (translateAttempt_error_classified _ _ hA)
        · simp only [hn, hf, if_false, Bool.false_eq_true] at h
          exact ih _ _ _ (Or.inr ⟨_, rfl, Or.inl (translateAttempt_error_classified _ _ hA)⟩) h

theorem optField_shape (v : JsValue) (h : presentNonString v = false) :
    v = .undefined ∨ ∃ s, v = .str s := by
  cases v <;> simp_all [presentNonString]

theorem valid_shape (r : TranslationResponse) (h : isValidTranslationResponse r = true) :
    (∃ s, r.translation = .str s ∧ jsTrim s ≠ "") ∧
    (r.explanation = .undefined ∨ ∃ s, r.explanation = .str s) ∧
    (r.transcription = .undefined ∨ ∃ s, r.transcription = .str s) ∧
    (r.detectedLanguage = .undefined ∨ ∃ s, r.detectedLanguage = .str s) := by
  rcases r with ⟨t, ex, tr, dl⟩
  cases t
  case str s =>
    simp only [isValidTranslationResponse] at h
    split at h
    · exact absurd h (by simp)
    · rename_i hempty
      simp only [Bool.and_eq_true, Bool.not_eq_true'] at h
      refine ⟨⟨s, rfl, ?_⟩, ?_, ?_, ?_⟩
      · simpa using hempty
      · exact optField_shape _ h.1.1
      · exact optField_shape _ h.1.2
      · exact optField_shape _ h.2
  all_goals exact absurd h (by simp [isValidTranslationResponse])

/-! ## Claim theorems -/

/-- Claim C1.  The claim states that an abort of the in-flight HTTP call is
rethrown unchanged, never reclassified as `network` and never retried.  The
code does the opposite: the catch-all in `translateAttempt` (lines 204–209)
tests `(error as OpenRouterError).type`, which is `undefined` on the
`AbortError` `DOMException`, so the abort is wrapped as a classified
`network` error; the `AbortError` test in `translate` (line 134) therefore
never fires, and an aborted call is retried with backoff like any network
failure.  This theorem evaluates the model on a call whose every attempt is
aborted: the abort is reclassified as `network`, three attempts are made
with the two backoff sleeps, and the final error is the reclassified one. -/
theorem c1_abort_reclassified_and_retried :
    OpenRouterService.translate (fun _ => FetchOutcome.abort) =
      { result := .error (.classified (createError .network
          "Network error occurred during translation" none)),
        sleeps := [1000, 2000], attempts := 3 } ∧
    translateAttempt FetchOutcome.abort =
      .error (.classified (createError .network
        "Network error occurred during translation" none)) ∧
    noRetry (.classified (createError .network
      "Network error occurred during translation" none)) = false :=
  ⟨rfl, rfl, rfl⟩

/-- Claim C2, counterexample.  The claim states that a failing `translate`
always throws a `ClassifiedError` — in particular when all `MAX` attempts
fail because of schema validation.  In the code the pending failure of a
schema-invalid attempt is `new Error('Invalid response schema')` (line 126),
a plain `Error` with no `kind`/`type` tag, and line 151 throws it as the
terminal failure: with a gateway that always returns a well-formed envelope
whose content parses to an empty translation, the thrown value is not a
classified error. -/
theorem c2_counterexample :
    OpenRouterService.translate (fun _ => .success (.obj [("choices", .arr [.obj [("message",
        .obj [("content", .str "\x7b\x7d")])]])])) =
      { result := .error (.jsError "Error" "Invalid response schema"),
        sleeps := [], attempts := 3 } ∧
    thrownIsClassified (.jsError "Error" "Invalid response schema") = false :=
  ⟨rfl, rfl⟩

/-- Claim C2, amended.  Every `translate` call either returns a
`TranslationResponse` that passes shape validation, or throws; the thrown
terminal failure is a `ClassifiedError` in every case except exhaustion
whose last attempt failed schema validation, where it is the plain
`Error('Invalid response schema')` pending failure. -/
theorem c2_amended (out : Nat → FetchOutcome) :
    (∃ r, (OpenRouterService.translate out).result = .ok r ∧
      isValidTranslationResponse r = true) ∨
    (∃ e, (OpenRouterService.translate out).result = .error e ∧
      (thrownIsClassified e = true ∨ e = .jsError "Error" "Invalid response schema")) := by
  cases hres : (OpenRouterService.translate out).result with
  | ok r => exact Or.inl ⟨r, rfl, translateAux_ok_valid out _ _ _ r hres⟩
  | error e => exact Or.inr ⟨e, rfl, translateAux_error_allowed out _ _ _ e (Or.inl rfl) hres⟩

/-- Claim C3, counterexample.  The claim states that a schema-invalid
success on attempt `n < MAX` sleeps `2^(n-1)` seconds before attempt `n+1`,
like a thrown retryable error.  In the code the schema-invalid path merely
records the pending failure and falls through to the next loop iteration:
the backoff on line 146 lives in the `catch` block and is not executed.
With attempt 1 schema-invalid (empty object content) and attempt 2 valid,
the trace shows two attempts and an empty sleep list where the claim
requires a 1-second sleep. -/
theorem c3_counterexample :
    OpenRouterService.translate (fun n =>
      if n = 1 then
        .success (.obj [("choices", .arr [.obj [("message",
          .obj [("content", .str "\x7b\x7d")])]])])
      else
        .success (.obj [("choices", .arr [.obj [("message",
          .obj [("content", .str "\x7b\"translation\": \"hola\"\x7d")])]])])) =
      { result := .ok { translation := .str "hola", explanation := .undefined,
                        transcription := .undefined, detectedLanguage := .undefined },
        sleeps := [], attempts := 2 } :=
  rfl

/-- Claim C3, amended.  A gateway success that fails shape validation on
attempt `n` consumes one of the `MAX` attempts and carries the generic
`Error('Invalid response schema')` as the pending failure, but the
orchestrator proceeds to attempt `n+1` immediately, with **no** backoff
sleep (the exponential backoff only applies to thrown retryable errors). -/
theorem c3_amended (out : Nat → FetchOutcome) (n fuel : Nat) (le : Option Thrown)
    (r : TranslationResponse)
    (h1 : translateAttempt (out n) = .ok r)
    (h2 : isValidTranslationResponse r = false) :
    (translateAux out n (fuel + 1) le).attempts =
      (translateAux out (n + 1) fuel (some (.jsError "Error" "Invalid response schema"))).attempts + 1 ∧
    (translateAux out n (fuel + 1) le).sleeps =
      (translateAux out (n + 1) fuel (some (.jsError "Error" "Invalid response schema"))).sleeps ∧
    (translateAux out n (fuel + 1) le).result =
      (translateAux out (n + 1) fuel (some (.jsError "Error" "Invalid response schema"))).result := by
  simp [translateAux, h1, h2]

/-- Witness for `c3_amended` at a concrete input: attempt 1 returns an empty
object as content (schema-invalid), the loop consumes the attempt and moves
on without sleeping. -/
theorem c3_amended_witness :
    translateAttempt ((fun _ => FetchOutcome.success (.obj [("choices", .arr [.obj [("message",
        .obj [("content", .str "\x7b\x7d")])]])])) 1) =
      .ok { translation := .str "", explanation := .undefined,
            transcription := .undefined, detectedLanguage := .undefined } ∧
    isValidTranslationResponse
      { translation := .str "", explanation := .undefined,
        transcription := .undefined, detectedLanguage := .undefined } = false ∧
    ((translateAux (fun _ => FetchOutcome.success (.obj [("choices", .arr [.obj [("message",
        .obj [("content", .str "\x7b\x7d")])]])])) 1 3 none).attempts =
      (translateAux (fun _ => FetchOutcome.success (.obj [("choices", .arr [.obj [("message",
        .obj [("content", .str "\x7b\x7d")])]])])) 2 2
        (some (.jsError "Error" "Invalid response schema"))).attempts + 1 ∧
     (translateAux (fun _ => FetchOutcome.success (.obj [("choices", .arr [.obj [("message",
        .obj [("content", .str "\x7b\x7d")])]])])) 1 3 none).sleeps =
      (translateAux (fun _ => FetchOutcome.success (.obj [("choices", .arr [.obj [("message",
        .obj [("content", .str "\x7b\x7d")])]])])) 2 2
        (some (.jsError "Error" "Invalid response schema"))).sleeps ∧
     (translateAux (fun _ => FetchOutcome.success (.obj [("choices", .arr [.obj [("message",
        .obj [("content", .str "\x7b\x7d")])]])])) 1 3 none).result =
      (translateAux (fun _ => FetchOutcome.success (.obj [("choices", .arr [.obj [("message",
        .obj [("content", .str "\x7b\x7d")])]])])) 2 2
        (some (.jsError "Error" "Invalid response schema"))).result) :=
  ⟨rfl, rfl, c3_amended _ 1 2 none _ rfl rfl⟩

/-- Claim C4.  When the gateway call throws a classified `network` error on
every attempt, `translate` performs exactly 3 attempts in sequence, sleeps
1000 ms after attempt 1 and 2000 ms after attempt 2 (and nothing after the
final attempt), and the error finally thrown is exactly the error thrown by
the third attempt. -/
theorem c4_retry_ceiling (out : Nat → FetchOutcome) (e1 e2 e3 : OpenRouterError)
    (h1 : translateAttempt (out 1) = .error (.classified e1)) (t1 : e1.type = .network)
    (h2 : translateAttempt (out 2) = .error (.classified e2)) (t2 : e2.type = .network)
    (h3 : translateAttempt (out 3) = .error (.classified e3)) (t3 : e3.type = .network) :
    OpenRouterService.translate out =
      { result := .error (.classified e3), sleeps := [1000, 2000], attempts := 3 } := by
  show translateAux out 1 3 none = _
  simp [translateAux, h1, h2, h3, noRetry, t1, t2, t3]

/-- Witness for `c4_retry_ceiling`: a transport whose `fetch` rejects with a
`TypeError` on every attempt. -/
theorem c4_retry_ceiling_witness :
    translateAttempt ((fun _ => FetchOutcome.netFail "TypeError" "Failed to fetch") 1) =
      .error (.classified (createError .network "Network error occurred during translation" none)) ∧
    (createError .network "Network error occurred during translation" none).type = .network ∧
    OpenRouterService.translate (fun _ => FetchOutcome.netFail "TypeError" "Failed to fetch") =
      { result := .error (.classified (createError .network
          "Network error occurred during translation" none)),
        sleeps := [1000, 2000], attempts := 3 } :=
  ⟨rfl, rfl, c4_retry_ceiling _ _ _ _ rfl rfl rfl rfl rfl rfl⟩

/-- Claim C5.  A single gateway attempt that receives a non-success HTTP
status throws a classified error carrying that status code — `auth` for 401
or 403, `rate_limit` for 429, `unknown` for everything else — without
reading the response body (in the model the `httpError` outcome carries
only the status, and classification uses nothing else); and when the first
attempt throws `auth` or `rate_limit`, `translate` makes exactly that one
attempt and propagates the same error with no sleeps. -/
theorem c5_status_classification_and_no_retry (s : Nat) (out : Nat → FetchOutcome)
    (er : OpenRouterError)
    (h1 : translateAttempt (out 1) = .error (.classified er))
    (h2 : er.type = .auth ∨ er.type = .rate_limit) :
    translateAttempt (.httpError s) =
      .error (.classified (createError
        (if s = 401 ∨ s = 403 then .auth else if s = 429 then .rate_limit else .unknown)
        (if s = 401 ∨ s = 403 then "Invalid API key"
         else if s = 429 then "Rate limit exceeded. Please try again later."
         else "Translation request failed with status " ++ toString s)
        (some s))) ∧
    OpenRouterService.translate out =
      { result := .error (.classified er), sleeps := [], attempts := 1 } := by
  constructor
  · simp only [translateAttempt]
    split_ifs <;> rfl
  · show translateAux out 1 3 none = _
    rcases h2 with h2 | h2 <;> simp [translateAux, h1, noRetry, h2]

/-- Witness for `c5_status_classification_and_no_retry`: status 429, and a
first attempt rejected with 401. -/
theorem c5_status_classification_witness :
    translateAttempt ((fun _ => FetchOutcome.httpError 401) 1) =
      .error (.classified (createError .auth "Invalid API key" (some 401))) ∧
    ((createError .auth "Invalid API key" (some 401)).type = .auth ∨
      (createError .auth "Invalid API key" (some 401)).type = .rate_limit) ∧
    (translateAttempt (.httpError 429) =
      .error (.classified (createError
        (if 429 = 401 ∨ 429 = 403 then .auth else if 429 = 429 then .rate_limit else .unknown)
        (if 429 = 401 ∨ 429 = 403 then "Invalid API key"
         else if 429 = 429 then "Rate limit exceeded. Please try again later."
         else "Translation request failed with status " ++ toString 429)
        (some 429))) ∧
     OpenRouterService.translate (fun _ => FetchOutcome.httpError 401) =
      { result := .error (.classified (createError .auth "Invalid API key" (some 401))),
        sleeps := [], attempts := 1 }) :=
  ⟨rfl, Or.inl rfl,
    c5_status_classification_and_no_retry 429 (fun _ => FetchOutcome.httpError 401) _ rfl (Or.inl rfl)⟩

/-- Claim C6.  For every string whose fence-stripped trim does not parse as
JSON, `parseTranslationResponse` returns the entire original input string,
unchanged, as the translation, with `explanation`, `transcription` and
`detectedLanguage` absent; and (by construction — the function is total,
every throw inside the `try` being caught) it never throws. -/
theorem c6_parser_fallback (s : String)
    (h : jsonParse (stripFences s) = none) :
    parseTranslationResponse s =
      { translation := .str s, explanation := .undefined,
        transcription := .undefined, detectedLanguage := .undefined } := by
  unfold parseTranslationResponse
  rw [h]

/-- Witness for `c6_parser_fallback`: a plain-text model reply. -/
theorem c6_parser_fallback_witness :
    jsonParse (stripFences "Plain text translation") = none ∧
    parseTranslationResponse "Plain text translation" =
      { translation := .str "Plain text translation", explanation := .undefined,
        transcription := .undefined, detectedLanguage := .undefined } :=
  ⟨rfl, c6_parser_fallback "Plain text translation" rfl⟩

/-- Claim C8.  Every `TranslationResponse` returned by a successful
`translate` call has a string translation that is non-empty after trimming,
and each optional field (`explanation`, `transcription`,
`detectedLanguage`), when present (not `undefined`), is a string. -/
theorem c8_success_shape (out : Nat → FetchOutcome) (r : TranslationResponse)
    (h : (OpenRouterService.translate out).result = .ok r) :
    (∃ s, r.translation = .str s ∧ jsTrim s ≠ "") ∧
    (r.explanation = .undefined ∨ ∃ s, r.explanation = .str s) ∧
    (r.transcription = .undefined ∨ ∃ s, r.transcription = .str s) ∧
    (r.detectedLanguage = .undefined ∨ ∃ s, r.detectedLanguage = .str s) :=
  valid_shape r (translateAux_ok_valid out MAX_RETRIES 1 none r h)

/-- Witness for `c8_success_shape`: a gateway returning a full valid body on
the first attempt. -/
theorem c8_success_shape_witness :
    (OpenRouterService.translate (fun _ => .success (.obj [("choices", .arr [.obj [("message",
        .obj [("content", .str "\x7b\"translation\": \"こんにちは\", \"explanation\": \"greeting\", \"transcription\": \"konnichiwa\"\x7d")])]])]))).result =
      .ok { translation := .str "こんにちは", explanation := .str "greeting",
            transcription := .str "konnichiwa", detectedLanguage := .undefined } ∧
    ((∃ s, (JsValue.str "こんにちは") = .str s ∧ jsTrim s ≠ "") ∧
     ((JsValue.str "greeting") = .undefined ∨ ∃ s, (JsValue.str "greeting") = .str s) ∧
     ((JsValue.str "konnichiwa") = .undefined ∨ ∃ s, (JsValue.str "konnichiwa") = .str s) ∧
     ((JsValue.undefined : JsValue) = .undefined ∨ ∃ s, (JsValue.undefined : JsValue) = .str s)) :=
  ⟨rfl, c8_success_shape
    (fun _ => .success (.obj [("choices", .arr [.obj [("message",
      .obj [("content", .str "\x7b\"translation\": \"こんにちは\", \"explanation\": \"greeting\", \"transcription\": \"konnichiwa\"\x7d")])]])]))
    { translation := .str "こんにちは", explanation := .str "greeting",
      transcription := .str "konnichiwa", detectedLanguage := .undefined } rfl⟩

/-- Claim C10.  `parseTranslationResponse` alone does not force the
translation to be a string: on the valid-JSON input `{"translation": 5}`
(braces elided here) the returned object's translation is the number `5`
unchanged — a truthy non-string — and only `isValidTranslationResponse`
rejects it afterwards. -/
theorem c10_parser_passes_nonstring_translation :
    parseTranslationResponse "\x7b\"translation\": 5\x7d" =
      { translation := .num 5 0, explanation := .undefined,
        transcription := .undefined, detectedLanguage := .undefined } ∧
    truthy (.num 5 0) = true ∧
    isStringV (.num 5 0) = false ∧
    isValidTranslationResponse
      { translation := .num 5 0, explanation := .undefined,
        transcription := .undefined, detectedLanguage := .undefined } = false :=
  ⟨rfl, rfl, rfl, rfl⟩

theorem strAppend_assoc (a b c : String) : (a ++ b) ++ c = a ++ (b ++ c) := by
  rcases a with ⟨la⟩
  rcases b with ⟨lb⟩
  rcases c with ⟨lc⟩
  show String.mk ((la ++ lb) ++ lc) = String.mk (la ++ (lb ++ lc))
  rw [List.append_assoc]

theorem transcriptionClause_split (request : TranslationRequest) :
    ∃ suf, transcriptionClause request =
      "\n\n" ++ "Please include a ROMANIZATION of the TRANSLATED text" ++ suf := by
  have hlit : "\n\nPlease include a ROMANIZATION of the TRANSLATED text (the translated " =
      ("\n\n" ++ "Please include a ROMANIZATION of the TRANSLATED text") ++
        " (the translated " := by rfl
  unfold transcriptionClause
  rw [hlit]
  repeat' split
  all_goals exact ⟨_, by simp only [strAppend_assoc]; rfl⟩

/-- Claim C9.  The transcription clause gating of `buildUserPrompt`: when
`fromLanguage` is `"auto"` the prompt is exactly the base prompt plus the
English reminder (no romanization request); the same holds whenever the two
languages map to the same writing system (which covers `en`→`es` and every
other same-script pair); and for every cross-writing-system pair of
recognized languages (`en`→`ja`, `en`→`zh`, `en`→`ko`, `en`→`ar`, `en`→`ru`,
`ja`→`en`, …) the prompt is the base prompt plus exactly one transcription
clause plus the reminder, and in particular contains the romanization
request text. -/
theorem c9_transcription_gating (request : TranslationRequest) :
    (request.fromLanguage = "auto" →
      buildUserPrompt request =
        promptBase request ++ "\n\nRemember: Write the explanation in English.") ∧
    (getWritingSystem request.fromLanguage = getWritingSystem request.toLanguage →
      buildUserPrompt request =
        promptBase request ++ "\n\nRemember: Write the explanation in English.") ∧
    (request.fromLanguage ≠ "auto" →
      getWritingSystem request.fromLanguage ≠ "unknown" →
      getWritingSystem request.toLanguage ≠ "unknown" →
      getWritingSystem request.fromLanguage ≠ getWritingSystem request.toLanguage →
      buildUserPrompt request =
        promptBase request ++ transcriptionClause request ++
          "\n\nRemember: Write the explanation in English." ∧
      ∃ pre post, buildUserPrompt request =
        pre ++ "Please include a ROMANIZATION of the TRANSLATED text" ++ post) := by
  refine ⟨?_, ?_, ?_⟩
  · intro ha
    have hnt : needsTranscription request.fromLanguage request.toLanguage = false := by
      simp [needsTranscription, ha]
    simp [buildUserPrompt, hnt]
  · intro hsys
    have hnt : needsTranscription request.fromLanguage request.toLanguage = false := by
      by_cases ha : request.fromLanguage == "auto"
      · simp [needsTranscription, ha]
      · simp only [needsTranscription, ha, Bool.false_eq_true, if_false]
        rw [hsys]
        by_cases hu : (getWritingSystem request.toLanguage == "unknown") <;> simp [hu]
    simp [buildUserPrompt, hnt]
  · intro ha h1 h2 h3
    have hnt : needsTranscription request.fromLanguage request.toLanguage = true := by
      have ha' : (request.fromLanguage == "auto") = false := beq_eq_false_iff_ne.mpr ha
      have h1' : (getWritingSystem request.fromLanguage == "unknown") = false :=
        beq_eq_false_iff_ne.mpr h1
      have h2' : (getWritingSystem request.toLanguage == "unknown") = false :=
        beq_eq_false_iff_ne.mpr h2
      have h3' : (getWritingSystem request.fromLanguage == getWritingSystem request.toLanguage) = false :=
        beq_eq_false_iff_ne.mpr h3
      simp [needsTranscription, ha', h1', h2', h3']
    have hbp : buildUserPrompt request =
        promptBase request ++ transcriptionClause request ++
          "\n\nRemember: Write the explanation in English." := by
      simp [buildUserPrompt, hnt]
    refine ⟨hbp, ?_⟩
    obtain ⟨suf, hsuf⟩ := transcriptionClause_split request
    refine ⟨promptBase request ++ "\n\n", suf ++ "\n\nRemember: Write the explanation in English.", ?_⟩
    rw [hbp, hsuf]
    simp only [strAppend_assoc]

/-- Witness for `c9_transcription_gating` at concrete requests: `auto`→`ja`
(no clause), `en`→`es` (same script, no clause), `en`→`ja` (cross script,
clause present). -/
theorem c9_transcription_gating_witness :
    (TranslationRequest.mk "k" "m" "Hello" "auto" "ja" none).fromLanguage = "auto" ∧
    buildUserPrompt (TranslationRequest.mk "k" "m" "Hello" "auto" "ja" none) =
      promptBase (TranslationRequest.mk "k" "m" "Hello" "auto" "ja" none) ++
        "\n\nRemember: Write the explanation in English." ∧
    getWritingSystem "en" = getWritingSystem "es" ∧
    buildUserPrompt (TranslationRequest.mk "k" "m" "Hello" "en" "es" none) =
      promptBase (TranslationRequest.mk "k" "m" "Hello" "en" "es" none) ++
        "\n\nRemember: Write the explanation in English." ∧
    ("en" : String) ≠ "auto" ∧
    getWritingSystem "en" ≠ "unknown" ∧
    getWritingSystem "ja" ≠ "unknown" ∧
    getWritingSystem "en" ≠ getWritingSystem "ja" ∧
    (buildUserPrompt (TranslationRequest.mk "k" "m" "Hello" "en" "ja" none) =
      promptBase (TranslationRequest.mk "k" "m" "Hello" "en" "ja" none) ++
        transcriptionClause (TranslationRequest.mk "k" "m" "Hello" "en" "ja" none) ++
        "\n\nRemember: Write the explanation in English." ∧
     ∃ pre post, buildUserPrompt (TranslationRequest.mk "k" "m" "Hello" "en" "ja" none) =
       pre ++ "Please include a ROMANIZATION of the TRANSLATED text" ++ post) :=
  ⟨rfl,
   (c9_transcription_gating (TranslationRequest.mk "k" "m" "Hello" "auto" "ja" none)).1 rfl,
   rfl,
   (c9_transcription_gating (TranslationRequest.mk "k" "m" "Hello" "en" "es" none)).2.1 rfl,
   by decide, by decide, by decide, by decide,
   (c9_transcription_gating (TranslationRequest.mk "k" "m" "Hello" "en" "ja" none)).2.2
     (by decide) (by decide) (by decide) (by decide)⟩

/-! ### Character-class facts -/

theorem isJsonWs_imp_isJsWs (c : Char) (h : isJsonWs c = true) : isJsWs c = true := by
  simp only [isJsonWs, Bool.or_eq_true, beq_iff_eq] at h
  simp only [isJsWs, Bool.or_eq_true, beq_iff_eq, Bool.and_eq_true, decide_eq_true_eq]
  omega

theorem isJsonWs_eq_false_of_isJsWs (c : Char) (h : isJsWs c = false) : isJsonWs c = false := by
  by_contra hw
  rw [Bool.not_eq_false] at hw
  rw [isJsonWs_imp_isJsWs c hw] at h
  exact Bool.noConfusion h

theorem not_isJsWs_of_digit (c : Char) (h : isDigitChar c = true) : isJsWs c = false := by
  simp only [isDigitChar, Bool.and_eq_true, decide_eq_true_eq] at h
  by_contra hw
  rw [Bool.not_eq_false] at hw
  simp only [isJsWs, Bool.or_eq_true, beq_iff_eq, Bool.and_eq_true, decide_eq_true_eq] at hw
  have h9 : ('9' : Char).toNat = 57 := by decide
  omega

theorem goodHead_not_jsWs (c : Char) (h : goodHead c = true) : isJsWs c = false := by
  simp only [goodHead, Bool.or_eq_true, beq_iff_eq] at h
  rcases h with ((((((h | h) | h) | h) | h) | h) | h) | h
  all_goals first
    | (subst h; decide)
    | exact not_isJsWs_of_digit c h

theorem goodHead_not_jsonWs (c : Char) (h : goodHead c = true) : isJsonWs c = false :=
  isJsonWs_eq_false_of_isJsWs c (goodHead_not_jsWs c h)

theorem goodHead_ne_j (c : Char) (h : goodHead c = true) : c ≠ 'j' := by
  intro he
  subst he
  exact absurd h (by decide)

theorem goodHead_ne_backtick (c : Char) (h : goodHead c = true) : c ≠ backtickChar := by
  intro he
  subst he
  exact absurd h (by decide)

/-! ### List lemmas -/

theorem dropWhile_append_all (p : Char → Bool) (l₁ l₂ : List Char) (h : l₁.all p = true) :
    (l₁ ++ l₂).dropWhile p = l₂.dropWhile p := by
  induction l₁ with
  | nil => rfl
  | cons a t ih =>
    simp only [List.all_cons, Bool.and_eq_true] at h
    simp only [List.cons_append, List.dropWhile_cons, h.1, if_true]
    exact ih h.2

theorem dropWhile_cons_false (p : Char → Bool) (c : Char) (l : List Char) (h : p c = false) :
    (c :: l).dropWhile p = c :: l := by
  simp [List.dropWhile_cons, h]

theorem dropTrailing_append_all (p : Char → Bool) (l₁ l₂ : List Char) (h : l₂.all p = true) :
    dropTrailing p (l₁ ++ l₂) = dropTrailing p l₁ := by
  unfold dropTrailing
  rw [List.reverse_append, dropWhile_append_all p _ _ (by simpa using h)]

theorem dropTrailing_last_false (p : Char → Bool) (l : List Char) (c : Char) (h : p c = false) :
    dropTrailing p (l ++ [c]) = l ++ [c] := by
  unfold dropTrailing
  rw [List.reverse_append]
  simp only [List.reverse_cons, List.reverse_nil, List.nil_append, List.singleton_append]
  rw [dropWhile_cons_false p c _ h]
  simp

theorem take1_eq (l : List Char) (x : Char) (h : l.take 1 = [x]) : l = x :: l.drop 1 := by
  cases l with
  | nil => simp at h
  | cons a t =>
    simp only [List.take_succ_cons, List.take_zero, List.cons.injEq, and_true] at h
    subst h
    rfl

theorem decomp_dropWhile (p : Char → Bool) (l : List Char) :
    ∃ w, l = w ++ l.dropWhile p ∧ w.all p = true := by
  refine ⟨l.takeWhile p, (List.takeWhile_append_dropWhile ..).symm, ?_⟩
  rw [List.all_eq_true]
  exact fun x hx => List.mem_takeWhile_imp hx

theorem dropWhile_head_false (p : Char → Bool) (l : List Char) :
    l.dropWhile p = [] ∨ ∃ c t, l.dropWhile p = c :: t ∧ p c = false := by
  induction l with
  | nil => exact Or.inl rfl
  | cons a t ih =>
    by_cases ha : p a
    · rw [List.dropWhile_cons, if_pos ha]
      exact ih
    · rw [List.dropWhile_cons, if_neg ha]
      exact Or.inr ⟨a, t, rfl, Bool.of_not_eq_true ha⟩

theorem dropTrailing_shape (p : Char → Bool) (l : List Char) :
    dropTrailing p l = [] ∨ ∃ t c, dropTrailing p l = t ++ [c] ∧ p c = false := by
  unfold dropTrailing
  rcases dropWhile_head_false p l.reverse with h | ⟨c, t, h, hc⟩
  · left
    rw [h]
    rfl
  · right
    exact ⟨t.reverse, c, by rw [h]; simp, hc⟩

theorem decomp_jsonTrim (l : List Char) :
    ∃ w1 w2, l = w1 ++ jsonTrimL l ++ w2 ∧ w1.all isJsonWs = true ∧ w2.all isJsonWs = true := by
  obtain ⟨w1, h1, hw1⟩ := decomp_dropWhile isJsonWs l
  obtain ⟨wr, hr, hwr⟩ := decomp_dropWhile isJsonWs (l.dropWhile isJsonWs).reverse
  refine ⟨w1, wr.reverse, ?_, hw1, by simpa using hwr⟩
  have hm : l.dropWhile isJsonWs =
      ((l.dropWhile isJsonWs).reverse.dropWhile isJsonWs).reverse ++ wr.reverse := by
    have := congrArg List.reverse hr
    simpa [List.reverse_append] using this
  calc l = w1 ++ l.dropWhile isJsonWs := h1
    _ = w1 ++ (jsonTrimL l ++ wr.reverse) := by rw [hm]; rfl
    _ = w1 ++ jsonTrimL l ++ wr.reverse := (List.append_assoc ..).symm

/-! ### Parser facts -/

theorem parseValue_nil (f : Nat) : parseValue f [] = none := by
  cases f <;> rfl

theorem parseValue_none_of_bad_head (f : Nat) (c : Char) (cs : List Char)
    (hg : goodHead c = false) : parseValue f (c :: cs) = none := by
  cases f with
  | zero => rfl
  | succ n =>
    simp only [goodHead, Bool.or_eq_false_iff, beq_eq_false_iff_ne, ne_eq] at hg
    obtain ⟨⟨⟨⟨⟨⟨⟨hn, ht⟩, hf⟩, hq⟩, hb⟩, hc⟩, hm⟩, hd⟩ := hg
    simp [parseValue, hn, ht, hf, hq, hb, hc, hm, hd]

theorem parseValue_good_head (f : Nat) (c : Char) (cs : List Char) (x : JsValue × List Char)
    (h : parseValue f (c :: cs) = some x) : goodHead c = true := by
  by_contra hg
  rw [Bool.not_eq_true] at hg
  rw [parseValue_none_of_bad_head f c cs hg] at h
  exact Option.noConfusion h

theorem exists_concat (l : List Char) (h : l ≠ []) : ∃ t c, l = t ++ [c] := by
  rcases hr : l.reverse with _ | ⟨c, t⟩
  · exact absurd (by simpa using congrArg List.reverse hr) h
  · exact ⟨t.reverse, c, by simpa using congrArg List.reverse hr⟩

theorem parseStringAux_consumes :
    ∀ n cs acc s rest, cs.length ≤ n → parseStringAux acc cs = some (s, rest) →
      ∃ pre, cs = pre ++ '"' :: rest := by
  intro n
  induction n with
  | zero =>
    intro cs acc s rest hlen h
    have hnil : cs = [] := List.eq_nil_of_length_eq_zero (Nat.le_zero.mp hlen)
    subst hnil
    exact absurd h (by rw [parseStringAux.eq_def]; simp)
  | succ n ih =>
    intro cs acc s rest hlen h
    cases cs with
    | nil => exact absurd h (by rw [parseStringAux.eq_def]; simp)
    | cons c cs' =>
      simp only [List.length_cons, Nat.add_le_add_iff_right] at hlen
      rw [parseStringAux.eq_def] at h
      dsimp only [] at h
      by_cases hq : c = '"'
      · subst hq
        rw [if_pos rfl] at h
        cases h
        exact ⟨[], rfl⟩
      · rw [if_neg hq] at h
        by_cases hesc : c = '\\'
        · rw [if_pos hesc] at h
          cases cs' with
          | nil => exact Option.noConfusion h
          | cons e rest2 =>
            simp only [List.length_cons] at hlen
            dsimp only [] at h
            split_ifs at h with h1 h2 h3 h4 h5 h6 h7 h8 h9
            case pos =>
              obtain ⟨pre, hp⟩ := ih rest2 _ s rest (by omega) h
              exact ⟨c :: e :: pre, by simp [hp]⟩
            case pos =>
              obtain ⟨pre, hp⟩ := ih rest2 _ s rest (by omega) h
              exact ⟨c :: e :: pre, by simp [hp]⟩
            case pos =>
              obtain ⟨pre, hp⟩ := ih rest2 _ s rest (by omega) h
              exact ⟨c :: e :: pre, by simp [hp]⟩
            case pos =>
              obtain ⟨pre, hp⟩ := ih rest2 _ s rest (by omega) h
              exact ⟨c :: e :: pre, by simp [hp]⟩
            case pos =>
              obtain ⟨pre, hp⟩ := ih rest2 _ s rest (by omega) h
              exact ⟨c :: e :: pre, by simp [hp]⟩
            case pos =>
              obtain ⟨pre, hp⟩ := ih rest2 _ s rest (by omega) h
              exact ⟨c :: e :: pre, by simp [hp]⟩
            case pos =>
              obtain ⟨pre, hp⟩ := ih rest2 _ s rest (by omega) h
              exact ⟨c :: e :: pre, by simp [hp]⟩
            case pos =>
              obtain ⟨pre, hp⟩ := ih rest2 _ s rest (by omega) h
              exact ⟨c :: e :: pre, by simp [hp]⟩
            case pos =>
              -- the \u escape: four hex digits then recursion
              rcases rest2 with _ | ⟨x1, rest2a⟩
              · exact Option.noConfusion h
              rcases rest2a with _ | ⟨x2, rest2b⟩
              · exact Option.noConfusion h
              rcases rest2b with _ | ⟨x3, rest2c⟩
              · exact Option.noConfusion h
              rcases rest2c with _ | ⟨x4, rest3⟩
              · exact Option.noConfusion h
              dsimp only [] at h
              simp only [List.length_cons] at hlen
              rcases hv1 : hexVal x1 with _ | v1 <;> rw [hv1] at h <;>
                try exact Option.noConfusion h
              rcases hv2 : hexVal x2 with _ | v2 <;> rw [hv2] at h <;>
                try exact Option.noConfusion h
              rcases hv3 : hexVal x3 with _ | v3 <;> rw [hv3] at h <;>
                try exact Option.noConfusion h
              rcases hv4 : hexVal x4 with _ | v4 <;> rw [hv4] at h <;>
                try exact Option.noConfusion h
              obtain ⟨pre, hp⟩ := ih rest3 _ s rest (by omega) h
              exact ⟨c :: e :: x1 :: x2 :: x3 :: x4 :: pre, by simp [hp]⟩
        · rw [if_neg hesc] at h
          by_cases hctl : c.toNat < 32
          · rw [if_pos hctl] at h
            exact Option.noConfusion h
          · rw [if_neg hctl] at h
            obtain ⟨pre, hp⟩ := ih cs' _ s rest (by omega) h
            exact ⟨c :: pre, by simp [hp]⟩

theorem takeWhile_all (p : Char → Bool) (l : List Char) : (l.takeWhile p).all p = true := by
  rw [List.all_eq_true]
  exact fun x hx => List.mem_takeWhile_imp hx

theorem parseExpPart_consumes (c : Char) (rest : List Char) (e : Int) (csOut : List Char)
    (h : parseExpPart (c :: rest) = (e, csOut)) :
    csOut = c :: rest ∨ ∃ pre d, c :: rest = pre ++ d :: csOut ∧ isDigitChar d = true := by
  have common : ∀ (sp rest1 : List Char) (v : Int), rest = sp ++ rest1 →
      (if rest1.takeWhile isDigitChar = [] then ((0 : Int), c :: rest)
       else (v, rest1.dropWhile isDigitChar)) = (e, csOut) →
      csOut = c :: rest ∨ ∃ pre d, c :: rest = pre ++ d :: csOut ∧ isDigitChar d = true := by
    intro sp rest1 v hsp hif
    by_cases hds : rest1.takeWhile isDigitChar = []
    · rw [if_pos hds] at hif
      cases hif
      exact Or.inl rfl
    · rw [if_neg hds] at hif
      cases hif
      obtain ⟨t, d, htd⟩ := exists_concat _ hds
      have hd : isDigitChar d = true := by
        have := takeWhile_all isDigitChar rest1
        rw [htd, List.all_eq_true] at this
        exact this d (by simp)
      refine Or.inr ⟨c :: sp ++ t, d, ?_, hd⟩
      have hr1 : rest1 = (t ++ [d]) ++ rest1.dropWhile isDigitChar := by
        rw [← htd]
        exact (List.takeWhile_append_dropWhile ..).symm
      rw [hsp]
      nth_rewrite 1 [hr1]
      simp
  rw [parseExpPart.eq_def] at h
  dsimp only [] at h
  by_cases hce : c = 'e' ∨ c = 'E'
  · rw [if_pos hce] at h
    cases rest with
    | nil =>
      dsimp only [] at h
      exact common [] [] _ rfl h
    | cons s r1 =>
      dsimp only [] at h
      by_cases hp : s = '+'
      · rw [if_pos hp] at h
        dsimp only [] at h
        exact common [s] r1 _ rfl h
      · rw [if_neg hp] at h
        by_cases hm : s = '-'
        · rw [if_pos hm] at h
          dsimp only [] at h
          exact common [s] r1 _ rfl h
        · rw [if_neg hm] at h
          dsimp only [] at h
          exact common [] (s :: r1) _ rfl h
  · rw [if_neg hce] at h
    cases h
    exact Or.inl rfl

theorem parseFracPart_consumes (cs : List Char) (fr : List Char) (csOut : List Char)
    (h : parseFracPart cs = (fr, csOut)) :
    csOut = cs ∨ ∃ pre d, cs = pre ++ d :: csOut ∧ isDigitChar d = true := by
  rw [parseFracPart.eq_def] at h
  cases cs with
  | nil =>
    dsimp only [] at h
    cases h
    exact Or.inl rfl
  | cons c rest =>
    dsimp only [] at h
    split_ifs at h with hcond
    · cases h
      obtain ⟨hdot, hdig, hne⟩ := hcond
      have htw : rest.takeWhile isDigitChar ≠ [] := by
        cases rest with
        | nil => exact absurd rfl hne
        | cons r0 rr =>
          simp only [List.take_succ_cons, List.take_zero, List.all_cons, List.all_nil,
            Bool.and_true] at hdig
          simp [List.takeWhile_cons, hdig]
      obtain ⟨t, d, htd⟩ := exists_concat _ htw
      have hd : isDigitChar d = true := by
        have := takeWhile_all isDigitChar rest
        rw [htd, List.all_eq_true] at this
        exact this d (by simp)
      refine Or.inr ⟨c :: t, d, ?_, hd⟩
      have hr1 : rest = (t ++ [d]) ++ rest.dropWhile isDigitChar := by
        rw [← htd]
        exact (List.takeWhile_append_dropWhile ..).symm
      nth_rewrite 1 [hr1]
      simp
    · cases h
      exact Or.inl rfl

theorem parseExpPart_consumes' (cs : List Char) (e : Int) (csOut : List Char)
    (h : parseExpPart cs = (e, csOut)) :
    csOut = cs ∨ ∃ pre d, cs = pre ++ d :: csOut ∧ isDigitChar d = true := by
  cases cs with
  | nil =>
    rw [parseExpPart.eq_def] at h
    dsimp only [] at h
    cases h
    exact Or.inl rfl
  | cons c rest => exact parseExpPart_consumes c rest e csOut h

theorem numTail_consumes (rest' : List Char) (fracs : List Char) (cs2 : List Char)
    (e3 : Int) (cs3 : List Char)
    (hF : parseFracPart rest' = (fracs, cs2)) (hE : parseExpPart cs2 = (e3, cs3)) :
    rest' = cs3 ∨ ∃ pre d, rest' = pre ++ d :: cs3 ∧ isDigitChar d = true := by
  have F := parseFracPart_consumes rest' fracs cs2 hF
  have E := parseExpPart_consumes' cs2 e3 cs3 hE
  rcases E with hE1 | ⟨pe, d, hEeq, hd⟩
  · rcases F with hF1 | ⟨pf, d, hFeq, hd⟩
    · exact Or.inl (by rw [← hF1, ← hE1])
    · exact Or.inr ⟨pf, d, by rw [hFeq, hE1], hd⟩
  · rcases F with hF1 | ⟨pf, df, hFeq, hdf⟩
    · exact Or.inr ⟨pe, d, by rw [← hF1, hEeq], hd⟩
    · exact Or.inr ⟨pf ++ df :: pe, d, by rw [hFeq, hEeq]; simp, hd⟩

theorem consume_glue (cs ip : List Char) (dInt : Char) (afterInt rest : List Char)
    (hcs : cs = ip ++ dInt :: afterInt) (hdInt : isDigitChar dInt = true)
    (htail : afterInt = rest ∨ ∃ pre d, afterInt = pre ++ d :: rest ∧ isDigitChar d = true) :
    ∃ pre d, cs = pre ++ d :: rest ∧ isDigitChar d = true := by
  rcases htail with rfl | ⟨pre, d, hpd, hd⟩
  · exact ⟨ip, dInt, hcs, hdInt⟩
  · exact ⟨ip ++ dInt :: pre, d, by rw [hcs, hpd]; simp, hd⟩

theorem intPart_decomp (c : Char) (rest' : List Char) (hc : isDigitChar c = true) :
    ∃ t d, c :: rest' = (t ++ [d]) ++ rest'.dropWhile isDigitChar ∧ isDigitChar d = true := by
  have hne : c :: rest'.takeWhile isDigitChar ≠ [] := by simp
  obtain ⟨t, d, htd⟩ := exists_concat (c :: rest'.takeWhile isDigitChar) hne
  have hall : (c :: rest'.takeWhile isDigitChar).all isDigitChar = true := by
    simp [hc, takeWhile_all]
  have hd : isDigitChar d = true := by
    rw [htd, List.all_eq_true] at hall
    exact hall d (by simp)
  refine ⟨t, d, ?_, hd⟩
  calc c :: rest'
      = c :: (rest'.takeWhile isDigitChar ++ rest'.dropWhile isDigitChar) := by
        rw [List.takeWhile_append_dropWhile]
    _ = (t ++ [d]) ++ rest'.dropWhile isDigitChar := by rw [← htd]; rfl

theorem parseNumber_consumes (cs : List Char) (q : Int × Int) (rest : List Char)
    (h : parseNumber cs = some (q, rest)) :
    ∃ pre d, cs = pre ++ d :: rest ∧ isDigitChar d = true := by
  have main : ∀ (sp : List Char) (c : Char) (rest' : List Char) (b : Bool),
      ((if c = '0' then
          match parseFracPart rest' with
          | (fracs, cs2) =>
            match parseExpPart cs2 with
            | (e3, cs3) => some (mkJsonNumber b 0 fracs e3, cs3)
        else if isDigitChar c then
          match parseFracPart (rest'.dropWhile isDigitChar) with
          | (fracs, cs2) =>
            match parseExpPart cs2 with
            | (e3, cs3) =>
              some (mkJsonNumber b (digitsToNat (c :: rest'.takeWhile isDigitChar)) fracs e3, cs3)
        else none) = some (q, rest)) →
      ∃ pre d, sp ++ c :: rest' = pre ++ d :: rest ∧ isDigitChar d = true := by
    intro sp c rest' b hb
    by_cases h0 : c = '0'
    · rw [if_pos h0] at hb
      rcases hF : parseFracPart rest' with ⟨fracs, cs2⟩
      rw [hF] at hb
      dsimp only [] at hb
      rcases hE : parseExpPart cs2 with ⟨e3, cs3⟩
      rw [hE] at hb
      dsimp only [] at hb
      cases hb
      exact consume_glue _ sp c rest' rest rfl (by rw [h0]; decide)
        (numTail_consumes rest' fracs cs2 e3 rest hF hE)
    · rw [if_neg h0] at hb
      by_cases hdig : isDigitChar c
      · rw [if_pos hdig] at hb
        rcases hF : parseFracPart (rest'.dropWhile isDigitChar) with ⟨fracs, cs2⟩
        rw [hF] at hb
        dsimp only [] at hb
        rcases hE : parseExpPart cs2 with ⟨e3, cs3⟩
        rw [hE] at hb
        dsimp only [] at hb
        cases hb
        obtain ⟨t, d, htd, hd⟩ := intPart_decomp c rest' hdig
        refine consume_glue _ (sp ++ t) d (rest'.dropWhile isDigitChar) rest ?_ hd
          (numTail_consumes _ fracs cs2 e3 rest hF hE)
        rw [htd]
        simp
      · rw [if_neg hdig] at hb
        exact Option.noConfusion hb
  rw [parseNumber.eq_def] at h
  dsimp only [] at h
  by_cases hsign : cs.take 1 = ['-']
  · rw [if_pos hsign] at h
    dsimp only [] at h
    rcases hdrop : cs.drop 1 with _ | ⟨c, rest'⟩ <;> rw [hdrop] at h
    · exact Option.noConfusion h
    · dsimp only [] at h
      have hcs : cs = '-' :: c :: rest' := by
        have h1 := take1_eq cs '-' hsign
        rw [hdrop] at h1
        exact h1
      rw [hcs]
      exact main ['-'] c rest' true h
  · rw [if_neg hsign] at h
    dsimp only [] at h
    cases cs with
    | nil => exact Option.noConfusion h
    | cons c rest' =>
      dsimp only [] at h
      simpa using main [] c rest' false h

theorem parse_consumes : ∀ f : Nat,
    (∀ cs v rest, parseValue f cs = some (v, rest) →
      ∃ pre c, cs = pre ++ c :: rest ∧ isJsWs c = false) ∧
    (∀ cs vs rest, parseElems f cs = some (vs, rest) →
      ∃ pre, cs = pre ++ ']' :: rest) ∧
    (∀ cs ms rest, parseMembers f cs = some (ms, rest) →
      ∃ pre, cs = pre ++ rbraceChar :: rest) := by
  intro f
  induction f with
  | zero =>
    refine ⟨?_, ?_, ?_⟩ <;> intro cs x rest h <;> exact Option.noConfusion h
  | succ n ih =>
    obtain ⟨ihV, ihE, ihM⟩ := ih
    refine ⟨?_, ?_, ?_⟩
    · -- parseValue
      intro cs v rest h
      cases cs with
      | nil => exact Option.noConfusion h
      | cons c cs' =>
        rw [parseValue.eq_def] at h
        dsimp only [] at h
        by_cases hn : c = 'n'
        · rw [if_pos hn] at h
          by_cases htk : cs'.take 3 = ['u', 'l', 'l']
          · rw [if_pos htk] at h
            cases h
            have hdec : cs' = ['u', 'l', 'l'] ++ cs'.drop 3 := by
              rw [← htk]
              exact (List.take_append_drop 3 cs').symm
            exact ⟨[c, 'u', 'l'], 'l', by rw [hdec]; simp, by decide⟩
          · rw [if_neg htk] at h
            exact Option.noConfusion h
        · rw [if_neg hn] at h
          by_cases ht : c = 't'
          · rw [if_pos ht] at h
            by_cases htk : cs'.take 3 = ['r', 'u', 'e']
            · rw [if_pos htk] at h
              cases h
              have hdec : cs' = ['r', 'u', 'e'] ++ cs'.drop 3 := by
                rw [← htk]
                exact (List.take_append_drop 3 cs').symm
              exact ⟨[c, 'r', 'u'], 'e', by rw [hdec]; simp, by decide⟩
            · rw [if_neg htk] at h
              exact Option.noConfusion h
          · rw [if_neg ht] at h
            by_cases hf : c = 'f'
            · rw [if_pos hf] at h
              by_cases htk : cs'.take 4 = ['a', 'l', 's', 'e']
              · rw [if_pos htk] at h
                cases h
                have hdec : cs' = ['a', 'l', 's', 'e'] ++ cs'.drop 4 := by
                  rw [← htk]
                  exact (List.take_append_drop 4 cs').symm
                exact ⟨[c, 'a', 'l', 's'], 'e', by rw [hdec]; simp, by decide⟩
              · rw [if_neg htk] at h
                exact Option.noConfusion h
            · rw [if_neg hf] at h
              by_cases hq : c = '"'
              · rw [if_pos hq] at h
                rcases hS : parseStringAux [] cs' with _ | ⟨s', restS⟩ <;> rw [hS] at h
                · exact Option.noConfusion h
                · dsimp only [] at h
                  cases h
                  obtain ⟨pre, hp⟩ :=
                    parseStringAux_consumes cs'.length cs' [] s' rest (le_refl _) hS
                  exact ⟨c :: pre, '"', by rw [hp]; simp, by decide⟩
              · rw [if_neg hq] at h
                by_cases hbr : c = '['
                · rw [if_pos hbr] at h
                  obtain ⟨w, hw, -⟩ := decomp_dropWhile isJsonWs cs'
                  by_cases hcl : (cs'.dropWhile isJsonWs).take 1 = [']']
                  · rw [if_pos hcl] at h
                    cases h
                    have h1 := take1_eq _ _ hcl
                    refine ⟨c :: w, ']', ?_, by decide⟩
                    conv_lhs => rw [hw, h1]
                    simp
                  · rw [if_neg hcl] at h
                    rcases hPE : parseElems n (cs'.dropWhile isJsonWs) with _ | ⟨vs, restE⟩ <;>
                      rw [hPE] at h
                    · exact Option.noConfusion h
                    · dsimp only [] at h
                      cases h
                      obtain ⟨pre, hp⟩ := ihE _ vs rest hPE
                      refine ⟨c :: w ++ pre, ']', ?_, by decide⟩
                      conv_lhs => rw [hw, hp]
                      simp
                · rw [if_neg hbr] at h
                  by_cases hob : c = lbraceChar
                  · rw [if_pos hob] at h
                    obtain ⟨w, hw, -⟩ := decomp_dropWhile isJsonWs cs'
                    by_cases hcl : (cs'.dropWhile isJsonWs).take 1 = [rbraceChar]
                    · rw [if_pos hcl] at h
                      cases h
                      have h1 := take1_eq _ _ hcl
                      refine ⟨c :: w, rbraceChar, ?_, by decide⟩
                      conv_lhs => rw [hw, h1]
                      simp
                    · rw [if_neg hcl] at h
                      rcases hPM : parseMembers n (cs'.dropWhile isJsonWs) with _ | ⟨ms, restM⟩ <;>
                        rw [hPM] at h
                      · exact Option.noConfusion h
                      · dsimp only [] at h
                        cases h
                        obtain ⟨pre, hp⟩ := ihM _ ms rest hPM
                        refine ⟨c :: w ++ pre, rbraceChar, ?_, by decide⟩
                        conv_lhs => rw [hw, hp]
                        simp
                  · rw [if_neg hob] at h
                    by_cases hnum : c = '-' ∨ isDigitChar c
                    · rw [if_pos hnum] at h
                      rcases hN : parseNumber (c :: cs') with _ | ⟨qq, restN⟩ <;> rw [hN] at h
                      · exact Option.noConfusion h
                      · dsimp only [] at h
                        cases h
                        obtain ⟨pre, d, hp, hd⟩ := parseNumber_consumes _ qq rest hN
                        exact ⟨pre, d, hp, not_isJsWs_of_digit d hd⟩
                    · rw [if_neg hnum] at h
                      exact Option.noConfusion h
    · -- parseElems
      intro cs vs rest h
      rw [parseElems.eq_def] at h
      dsimp only [] at h
      rcases hV : parseValue n cs with _ | ⟨v, restV⟩ <;> rw [hV] at h
      · exact Option.noConfusion h
      · dsimp only [] at h
        obtain ⟨preV, cV, hpV, -⟩ := ihV cs v restV hV
        obtain ⟨w1, hw1, -⟩ := decomp_dropWhile isJsonWs restV
        by_cases hcm : (restV.dropWhile isJsonWs).take 1 = [',']
        · rw [if_pos hcm] at h
          rcases hPE : parseElems n (((restV.dropWhile isJsonWs).drop 1).dropWhile isJsonWs)
              with _ | ⟨vs2, rest2⟩ <;> rw [hPE] at h
          · exact Option.noConfusion h
          · dsimp only [] at h
            cases h
            obtain ⟨w2, hw2, -⟩ := decomp_dropWhile isJsonWs ((restV.dropWhile isJsonWs).drop 1)
            obtain ⟨pre, hp⟩ := ihE _ vs2 rest hPE
            have h1 := take1_eq _ _ hcm
            refine ⟨preV ++ cV :: w1 ++ ',' :: w2 ++ pre, ?_⟩
            conv_lhs => rw [hpV, hw1, h1, hw2, hp]
            simp
        · rw [if_neg hcm] at h
          by_cases hbr : (restV.dropWhile isJsonWs).take 1 = [']']
          · rw [if_pos hbr] at h
            cases h
            have h1 := take1_eq _ _ hbr
            refine ⟨preV ++ cV :: w1, ?_⟩
            conv_lhs => rw [hpV, hw1, h1]
            simp
          · rw [if_neg hbr] at h
            exact Option.noConfusion h
    · -- parseMembers
      intro cs ms rest h
      rw [parseMembers.eq_def] at h
      dsimp only [] at h
      cases cs with
      | nil => exact Option.noConfusion h
      | cons c cs1 =>
        dsimp only [] at h
        by_cases hq : c = '"'
        · rw [if_pos hq] at h
          rcases hS : parseStringAux [] cs1 with _ | ⟨k, restK⟩ <;> rw [hS] at h
          · exact Option.noConfusion h
          · dsimp only [] at h
            obtain ⟨preK, hpK⟩ := parseStringAux_consumes cs1.length cs1 [] k restK (le_refl _) hS
            obtain ⟨w1, hw1, -⟩ := decomp_dropWhile isJsonWs restK
            by_cases hcol : (restK.dropWhile isJsonWs).take 1 = [':']
            · rw [if_pos hcol] at h
              rcases hV : parseValue n (((restK.dropWhile isJsonWs).drop 1).dropWhile isJsonWs)
                  with _ | ⟨v, rest2⟩ <;> rw [hV] at h
              · exact Option.noConfusion h
              · dsimp only [] at h
                obtain ⟨w2, hw2, -⟩ :=
                  decomp_dropWhile isJsonWs ((restK.dropWhile isJsonWs).drop 1)
                obtain ⟨preV, cV, hpV, -⟩ := ihV _ v rest2 hV
                obtain ⟨w3, hw3, -⟩ := decomp_dropWhile isJsonWs rest2
                have hcol1 := take1_eq _ _ hcol
                by_cases hcm : (rest2.dropWhile isJsonWs).take 1 = [',']
                · rw [if_pos hcm] at h
                  rcases hPM : parseMembers n (((rest2.dropWhile isJsonWs).drop 1).dropWhile isJsonWs)
                      with _ | ⟨ms2, rest3⟩ <;> rw [hPM] at h
                  · exact Option.noConfusion h
                  · dsimp only [] at h
                    cases h
                    obtain ⟨w4, hw4, -⟩ :=
                      decomp_dropWhile isJsonWs ((rest2.dropWhile isJsonWs).drop 1)
                    obtain ⟨preM, hpM⟩ := ihM _ ms2 rest hPM
                    have hcm1 := take1_eq _ _ hcm
                    refine ⟨c :: preK ++ '"' :: w1 ++ ':' :: w2 ++ preV ++ cV :: w3 ++
                      ',' :: w4 ++ preM, ?_⟩
                    conv_lhs => rw [hpK, hw1, hcol1, hw2, hpV, hw3, hcm1, hw4, hpM]
                    simp
                · rw [if_neg hcm] at h
                  by_cases hcb : (rest2.dropWhile isJsonWs).take 1 = [rbraceChar]
                  · rw [if_pos hcb] at h
                    cases h
                    have hcb1 := take1_eq _ _ hcb
                    refine ⟨c :: preK ++ '"' :: w1 ++ ':' :: w2 ++ preV ++ cV :: w3, ?_⟩
                    conv_lhs => rw [hpK, hw1, hcol1, hw2, hpV, hw3, hcb1]
                    simp
                  · rw [if_neg hcb] at h
                    exact Option.noConfusion h
            · rw [if_neg hcol] at h
              exact Option.noConfusion h
        · rw [if_neg hq] at h
          exact Option.noConfusion h

theorem jsonParse_some_iff (s : String) (v : JsValue) :
    jsonParse s = some v ↔
      parseValue (2 * (jsonTrimL s.data).length + 2) (jsonTrimL s.data) = some (v, []) := by
  simp only [jsonParse]
  rcases hp : parseValue (2 * (jsonTrimL s.data).length + 2) (jsonTrimL s.data) with _ | ⟨v', r⟩
  · simp
  · rcases r with _ | ⟨c, t⟩
    · simp
    · simp

theorem parseValue_exact_no_trailing (f : Nat) (cs : List Char) (v : JsValue)
    (h : parseValue f cs = some (v, [])) :
    dropTrailing isJsWs cs = cs ∧ dropTrailing isJsonWs cs = cs := by
  obtain ⟨pre, c, hp, hc⟩ := (parse_consumes f).1 cs v [] h
  have hp' : cs = pre ++ [c] := hp
  constructor
  · rw [hp']
    exact dropTrailing_last_false isJsWs pre c hc
  · rw [hp']
    exact dropTrailing_last_false isJsonWs pre c (isJsonWs_eq_false_of_isJsWs c hc)

theorem all_mono_jsonWs (l : List Char) (h : l.all isJsonWs = true) : l.all isJsWs = true := by
  rw [List.all_eq_true] at h ⊢
  exact fun x hx => isJsonWs_imp_isJsWs x (h x hx)

theorem stripCloseFence_shape (core z : List Char)
    (hz : z.all isJsonWs = true)
    (hcore : dropTrailing isJsonWs core = core) :
    ∃ z', stripCloseFenceL (core ++ z ++ [backtickChar, backtickChar, backtickChar]) =
        core ++ z' ∧ z'.all isJsonWs = true := by
  have hb : isJsWs backtickChar = false := by decide
  have hrev : (core ++ z ++ [backtickChar, backtickChar, backtickChar]).reverse =
      backtickChar :: backtickChar :: backtickChar :: (z.reverse ++ core.reverse) := by
    simp
  simp only [stripCloseFenceL]
  rw [hrev, dropWhile_cons_false _ _ _ hb]
  rw [if_pos (by rfl)]
  simp only [List.drop_succ_cons, List.drop_zero]
  rcases hzr : z.reverse with _ | ⟨zc, zr⟩
  · have hznil : z = [] := by simpa using congrArg List.reverse hzr
    subst hznil
    simp only [List.reverse_nil, List.nil_append]
    have hshape := dropTrailing_shape isJsonWs core
    rw [hcore] at hshape
    rcases hshape with hc | ⟨t, clast, hct, hcl⟩
    · subst hc
      refine ⟨[], ?_, rfl⟩
      simp
    · have hcrev : core.reverse = clast :: t.reverse := by
        rw [hct]
        simp
      rw [hcrev]
      have hne : ¬(List.take 1 (clast :: t.reverse) = ['\n']) := by
        simp only [List.take_succ_cons, List.take_zero]
        intro hx
        have : clast = '\n' := by simpa using hx
        rw [this] at hcl
        exact absurd hcl (by decide)
      rw [if_neg hne]
      refine ⟨[], ?_, rfl⟩
      rw [← hcrev]
      simp
  · have hzeq : z = zr.reverse ++ [zc] := by simpa using congrArg List.reverse hzr
    by_cases hnl : zc = '\n'
    · rw [if_pos (by simp [hnl])]
      refine ⟨zr.reverse, ?_, ?_⟩
      · simp
      · rw [hzeq] at hz
        simp only [List.all_append] at hz
        exact (Bool.and_eq_true ..).mp hz |>.1
    · rw [if_neg (by simp [hnl])]
      refine ⟨z, ?_, hz⟩
      rw [hzeq]
      simp

theorem dropTrailing_jsWs_end_backtick (l : List Char) :
    dropTrailing isJsWs (l ++ [backtickChar, backtickChar, backtickChar]) =
      l ++ [backtickChar, backtickChar, backtickChar] := by
  have h : l ++ [backtickChar, backtickChar, backtickChar] =
      (l ++ [backtickChar, backtickChar]) ++ [backtickChar] := by simp
  rw [h, dropTrailing_last_false _ _ _ (by decide), ← h]

theorem take_ne_json_of_head (c : Char) (t : List Char) (hc : c ≠ 'j') :
    ¬((c :: t).take 4 = ['j', 's', 'o', 'n']) := by
  intro hx
  rw [List.take_succ_cons] at hx
  injection hx with h1 _
  exact hc h1

theorem backtick_data : "```".data = [backtickChar, backtickChar, backtickChar] := by decide

theorem json_data : "json".data = ['j', 's', 'o', 'n'] := by decide

/-- Claim C7, counterexample.  The claim quantifies over every JSON string
`j`; it fails at `j = "null"`.  `"null"` is valid JSON, but the parsed value
is `null`, so `parsed.translation` throws and the fallback uses the entire
original content — which is `"null"` for the unwrapped call and the whole
fenced string for the wrapped call, giving different responses. -/
theorem c7_counterexample :
    jsonParse "null" = some JsValue.null ∧
    parseTranslationResponse ("" ++ "```" ++ "json" ++ "\n" ++ "null" ++ "\n" ++ "```" ++ "") ≠
      parseTranslationResponse "null" := by
  refine ⟨rfl, ?_⟩
  intro h
  have h2 := congrArg TranslationResponse.translation h
  rw [show (parseTranslationResponse
        ("" ++ "```" ++ "json" ++ "\n" ++ "null" ++ "\n" ++ "```" ++ "")).translation =
      JsValue.str "```json\nnull\n```" from rfl,
    show (parseTranslationResponse "null").translation = JsValue.str "null" from rfl] at h2
  have h3 : ("```json\nnull\n```" : String) = "null" := by
    injection h2
  exact absurd h3 (by decide)

/-- Claim C7, amended.  For every JSON string `j` whose parse is a value
other than `null`, wrapping `j` in a triple-backtick fence — with or without
a `json` tag, with or without a newline after the opening fence and before
the closing fence, and with arbitrary surrounding JS whitespace — gives the
same `TranslationResponse` as the unwrapped `j`.  (The `null` exclusion is
forced by the counterexample: a `null` parse takes the fallback path, which
embeds the original content.) -/
theorem c7_amended (j w1 w2 tag nl1 nl2 : String) (v : JsValue)
    (hv : jsonParse j = some v) (hnn : v ≠ JsValue.null)
    (hw1 : w1.data.all isJsWs = true) (hw2 : w2.data.all isJsWs = true)
    (htag : tag = "" ∨ tag = "json")
    (hnl1 : nl1 = "" ∨ nl1 = "\n") (hnl2 : nl2 = "" ∨ nl2 = "\n") :
    parseTranslationResponse (w1 ++ "```" ++ tag ++ nl1 ++ j ++ nl2 ++ "```" ++ w2) =
      parseTranslationResponse j := by
  have hpv0 := (jsonParse_some_iff j v).mp hv
  obtain ⟨w1', w2', hdecomp, hw1', hw2'⟩ := decomp_jsonTrim j.data
  obtain ⟨core, hcore⟩ : ∃ core, jsonTrimL j.data = core := ⟨_, rfl⟩
  rw [hcore] at hpv0 hdecomp
  have hnotrail := parseValue_exact_no_trailing _ _ _ hpv0
  cases core with
  | nil =>
    rw [parseValue_nil] at hpv0
    exact Option.noConfusion hpv0
  | cons ch ct =>
    have hgh : goodHead ch = true := parseValue_good_head _ _ _ _ hpv0
    have hch_ws : isJsWs ch = false := goodHead_not_jsWs ch hgh
    have hch_jws : isJsonWs ch = false := isJsonWs_eq_false_of_isJsWs ch hch_ws
    have hch_j : ch ≠ 'j' := goodHead_ne_j ch hgh
    have hch_bt : ch ≠ backtickChar := goodHead_ne_backtick ch hgh
    have hnl1a : nl1.data.all isJsWs = true := by rcases hnl1 with rfl | rfl <;> decide
    have hnl2json : nl2.data.all isJsonWs = true := by rcases hnl2 with rfl | rfl <;> decide
    -- the unwrapped side trims to exactly the JSON core
    have hjsTrim : jsTrimL j.data = ch :: ct := by
      unfold jsTrimL
      rw [hdecomp, List.append_assoc,
        dropWhile_append_all _ w1' _ (all_mono_jsonWs w1' hw1'),
        List.cons_append, dropWhile_cons_false _ _ _ hch_ws,
        ← List.cons_append, dropTrailing_append_all _ _ _ (all_mono_jsonWs w2' hw2')]
      exact hnotrail.1
    have hsfu : stripFencesL j.data = ch :: ct := by
      simp only [stripFencesL]
      rw [hjsTrim]
      have hne : ¬((ch :: ct).take 3 = [backtickChar, backtickChar, backtickChar]) := by
        intro hx
        rw [List.take_succ_cons] at hx
        injection hx with h1 _
        exact hch_bt h1
      rw [if_neg hne]
    have hjt_core : jsonTrimL (ch :: ct) = ch :: ct := by
      unfold jsonTrimL
      rw [dropWhile_cons_false _ _ _ hch_jws]
      exact hnotrail.2
    have hjp_u : jsonParse (stripFences j) = some v := by
      rw [jsonParse_some_iff]
      have hd : (stripFences j).data = ch :: ct := hsfu
      rw [hd, hjt_core]
      exact hpv0
    -- the wrapped side
    have hbt3 : isJsWs backtickChar = false := by decide
    have hWdata : (w1 ++ "```" ++ tag ++ nl1 ++ j ++ nl2 ++ "```" ++ w2).data =
        w1.data ++ ([backtickChar, backtickChar, backtickChar] ++ (tag.data ++ (nl1.data ++
          (j.data ++ (nl2.data ++ ([backtickChar, backtickChar, backtickChar] ++ w2.data)))))) := by
      simp [String.data_append, List.append_assoc]
      all_goals decide
    have hWtrim : jsTrimL (w1 ++ "```" ++ tag ++ nl1 ++ j ++ nl2 ++ "```" ++ w2).data =
        backtickChar :: backtickChar :: backtickChar :: (tag.data ++ (nl1.data ++
          (j.data ++ (nl2.data ++ [backtickChar, backtickChar, backtickChar])))) := by
      unfold jsTrimL
      rw [hWdata, dropWhile_append_all _ _ _ hw1]
      rw [show ([backtickChar, backtickChar, backtickChar] ++ (tag.data ++ (nl1.data ++
          (j.data ++ (nl2.data ++ ([backtickChar, backtickChar, backtickChar] ++ w2.data)))))) =
        backtickChar :: (backtickChar :: backtickChar :: (tag.data ++ (nl1.data ++
          (j.data ++ (nl2.data ++ ([backtickChar, backtickChar, backtickChar] ++ w2.data))))))
        from by simp]
      rw [dropWhile_cons_false _ _ _ hbt3]
      rw [show backtickChar :: (backtickChar :: backtickChar :: (tag.data ++ (nl1.data ++
          (j.data ++ (nl2.data ++ ([backtickChar, backtickChar, backtickChar] ++ w2.data)))))) =
        (backtickChar :: backtickChar :: backtickChar :: (tag.data ++ (nl1.data ++
          (j.data ++ (nl2.data ++ [backtickChar, backtickChar, backtickChar]))))) ++ w2.data
        from by simp]
      rw [dropTrailing_append_all _ _ _ hw2]
      rw [show backtickChar :: backtickChar :: backtickChar :: (tag.data ++ (nl1.data ++
          (j.data ++ (nl2.data ++ [backtickChar, backtickChar, backtickChar])))) =
        (backtickChar :: backtickChar :: backtickChar :: (tag.data ++ (nl1.data ++
          (j.data ++ nl2.data)))) ++ [backtickChar, backtickChar, backtickChar]
        from by simp]
      exact dropTrailing_jsWs_end_backtick _
    have hopen_common : List.dropWhile isJsWs (nl1.data ++
        (j.data ++ (nl2.data ++ [backtickChar, backtickChar, backtickChar]))) =
        ch :: (ct ++ (w2' ++ (nl2.data ++ [backtickChar, backtickChar, backtickChar]))) := by
      rw [dropWhile_append_all _ _ _ hnl1a]
      conv_lhs => rw [hdecomp]
      rw [show ((w1' ++ (ch :: ct)) ++ w2') ++
          (nl2.data ++ [backtickChar, backtickChar, backtickChar]) =
        w1' ++ ((ch :: ct) ++ (w2' ++ (nl2.data ++ [backtickChar, backtickChar, backtickChar])))
        from by simp]
      rw [dropWhile_append_all _ _ _ (all_mono_jsonWs _ hw1'), List.cons_append,
        dropWhile_cons_false _ _ _ hch_ws]
    have hopened : stripOpenFenceL (backtickChar :: backtickChar :: backtickChar ::
        (tag.data ++ (nl1.data ++ (j.data ++
          (nl2.data ++ [backtickChar, backtickChar, backtickChar]))))) =
        ch :: (ct ++ (w2' ++ (nl2.data ++ [backtickChar, backtickChar, backtickChar]))) := by
      simp only [stripOpenFenceL]
      rw [if_pos (by rfl)]
      simp only [List.drop_succ_cons, List.drop_zero]
      rcases htag with rfl | rfl
      · have hjd : ("" : String).data = [] := rfl
        rw [hjd, List.nil_append]
        have hhead : ∃ c t, nl1.data ++ (j.data ++
            (nl2.data ++ [backtickChar, backtickChar, backtickChar])) = c :: t ∧ c ≠ 'j' := by
          rcases hnl1 with rfl | rfl
          · rw [show ("" : String).data = [] from rfl, List.nil_append]
            rw [hdecomp]
            cases w1' with
            | nil =>
              refine ⟨ch, ct ++ (w2' ++ (nl2.data ++
                [backtickChar, backtickChar, backtickChar])), by simp, hch_j⟩
            | cons wc wt =>
              have hwc : isJsonWs wc = true := by
                have := hw1'
                rw [List.all_cons, Bool.and_eq_true] at this
                exact this.1
              refine ⟨wc, wt ++ ((ch :: ct ++ w2') ++ (nl2.data ++
                [backtickChar, backtickChar, backtickChar])), by simp, ?_⟩
              intro he
              rw [he] at hwc
              exact absurd hwc (by decide)
          · refine ⟨'\n', j.data ++ (nl2.data ++ [backtickChar, backtickChar, backtickChar]),
              ?_, by decide⟩
            rw [show ("\n" : String).data = ['\n'] from rfl]
            simp
        obtain ⟨c, t, hct, hc⟩ := hhead
        rw [hct, if_neg (take_ne_json_of_head c t hc), ← hct]
        exact hopen_common
      · rw [json_data]
        rw [show ['j', 's', 'o', 'n'] ++ (nl1.data ++ (j.data ++
            (nl2.data ++ [backtickChar, backtickChar, backtickChar]))) =
          'j' :: 's' :: 'o' :: 'n' :: (nl1.data ++ (j.data ++
            (nl2.data ++ [backtickChar, backtickChar, backtickChar]))) from by simp]
        rw [if_pos (by rfl)]
        simp only [List.drop_succ_cons, List.drop_zero]
        exact hopen_common
    have hzall : (w2' ++ nl2.data).all isJsonWs = true := by
      rw [List.all_append]
      rw [hw2', hnl2json]
      rfl
    obtain ⟨z', hclose, hz'⟩ :=
      stripCloseFence_shape (ch :: ct) (w2' ++ nl2.data) hzall hnotrail.2
    have hsfw : stripFencesL (w1 ++ "```" ++ tag ++ nl1 ++ j ++ nl2 ++ "```" ++ w2).data =
        (ch :: ct) ++ z' := by
      simp only [stripFencesL]
      rw [hWtrim, if_pos (by rfl), hopened]
      rw [show ch :: (ct ++ (w2' ++ (nl2.data ++ [backtickChar, backtickChar, backtickChar]))) =
        (ch :: ct) ++ (w2' ++ nl2.data) ++ [backtickChar, backtickChar, backtickChar]
        from by simp]
      exact hclose
    have hjt_w : jsonTrimL ((ch :: ct) ++ z') = ch :: ct := by
      unfold jsonTrimL
      rw [List.cons_append, dropWhile_cons_false _ _ _ hch_jws, ← List.cons_append,
        dropTrailing_append_all _ _ _ hz']
      exact hnotrail.2
    have hjp_w : jsonParse (stripFences
        (w1 ++ "```" ++ tag ++ nl1 ++ j ++ nl2 ++ "```" ++ w2)) = some v := by
      rw [jsonParse_some_iff]
      have hd : (stripFences (w1 ++ "```" ++ tag ++ nl1 ++ j ++ nl2 ++ "```" ++ w2)).data =
          (ch :: ct) ++ z' := hsfw
      rw [hd, hjt_w]
      exact hpv0
    have hnv : isNullV v = false := by
      cases v <;> first | rfl | exact absurd rfl hnn
    simp only [parseTranslationResponse]
    rw [hjp_w, hjp_u]
    simp [hnv]

/-- Witness for `c7_amended`: the JSON text `[true]` wrapped in a
`json`-tagged fence with newlines and a trailing space parses to the same
response as the bare text. -/
theorem c7_amended_witness :
    jsonParse "[true]" = some (JsValue.arr [JsValue.bool true]) ∧
    JsValue.arr [JsValue.bool true] ≠ JsValue.null ∧
    ("" : String).data.all isJsWs = true ∧
    (" " : String).data.all isJsWs = true ∧
    parseTranslationResponse ("" ++ "```" ++ "json" ++ "\n" ++ "[true]" ++ "\n" ++ "```" ++ " ") =
      parseTranslationResponse "[true]" :=
  ⟨rfl, fun h => JsValue.noConfusion h, rfl, by decide,
    c7_amended "[true]" "" " " "json" "\n" "\n" (JsValue.arr [JsValue.bool true])
      rfl (fun h => JsValue.noConfusion h) rfl (by decide)
      (Or.inr rfl) (Or.inr rfl) (Or.inr rfl)⟩
